/-
Formal model of the nexus-mcp runner pipeline (Python repository j7an/nexus-mcp).

The development shallowly embeds the parts of the source that the verified
claims are about:

* `src/nexus_mcp/parser.py`  — noisy-text JSON extraction utilities
* `src/nexus_mcp/runners/gemini.py` — the Gemini CLI runner (command building,
  output parsing, error recovery, structured-error extraction)
* `src/nexus_mcp/runners/base.py` — the Template-Method `run()` skeleton and
  output-size limiting
* `src/nexus_mcp/server.py` — label assignment and batch orchestration
* `src/nexus_mcp/types.py` — the pydantic data model and its validators
* `src/nexus_mcp/exceptions.py` — the error taxonomy

Python strings are modelled as `List Char` (`PyStr`) so that index-based
scanning (`str.rfind`, reverse loops) and slicing match the source exactly.
Python's `json.loads` is modelled by an executable recursive-descent parser
over the same grammar (strict JSON plus the `NaN`/`Infinity`/`-Infinity`
constants that Python's default decoder accepts), with numbers kept as exact
scaled decimals.  Subprocess execution is an input (`SubprocessResult`), and
the per-request tempfile name is passed in as a parameter; the persisted
full-output file is modelled as returned data.
-/
import Mathlib

namespace NexusMCP

/-- A Python `str`: a finite sequence of Unicode code points. -/
abbrev PyStr := List Char

/-- Convenience coercion from Lean string literals. -/
def pystr (s : String) : PyStr := s.toList

/-! ### UTF-8 encoding, byte length, and lenient decoding

Models `str.encode("utf-8")`, `len(...)` of the encoded bytes, and
`bytes.decode("utf-8", errors="ignore")` as used by
`AbstractRunner._apply_output_limit`. -/

/-- Number of bytes the UTF-8 encoding of one code point occupies. -/
def utf8CharLen (c : Char) : Nat :=
  if c.toNat < 0x80 then 1
  else if c.toNat < 0x800 then 2
  else if c.toNat < 0x10000 then 3
  else 4

/-- UTF-8 encoding of one code point, as byte values. -/
def utf8EncodeChar (c : Char) : List Nat :=
  let n := c.toNat
  if n < 0x80 then [n]
  else if n < 0x800 then [0xC0 + n / 64, 0x80 + n % 64]
  else if n < 0x10000 then
    [0xE0 + n / 4096, 0x80 + n / 64 % 64, 0x80 + n % 64]
  else
    [0xF0 + n / 262144, 0x80 + n / 4096 % 64, 0x80 + n / 64 % 64, 0x80 + n % 64]

/-- `s.encode("utf-8")`. -/
def utf8Encode (s : PyStr) : List Nat := s.flatMap utf8EncodeChar

/-- `len(s.encode("utf-8"))`. -/
def utf8Len (s : PyStr) : Nat := (utf8Encode s).length

/-- Continuation of a two-byte UTF-8 sequence with lead byte `b`. -/
def utf8Decode2 (b : Nat) : List Nat → Option (Nat × List Nat)
  | b1 :: bs1 =>
    if 0x80 ≤ b1 ∧ b1 < 0xC0 then
      some ((b - 0xC0) * 64 + (b1 - 0x80), bs1)
    else none
  | _ => none

/-- Continuation of a three-byte UTF-8 sequence with lead byte `b` (the
`0xE0`/`0xED` side conditions reject overlong forms and surrogates). -/
def utf8Decode3 (b : Nat) : List Nat → Option (Nat × List Nat)
  | b1 :: b2 :: bs2 =>
    if (0x80 ≤ b1 ∧ b1 < 0xC0) ∧ (0x80 ≤ b2 ∧ b2 < 0xC0)
        ∧ (b = 0xE0 → 0xA0 ≤ b1) ∧ (b = 0xED → b1 < 0xA0) then
      some (((b - 0xE0) * 64 + (b1 - 0x80)) * 64 + (b2 - 0x80), bs2)
    else none
  | _ => none

/-- Continuation of a four-byte UTF-8 sequence with lead byte `b` (the
`0xF0`/`0xF4` side conditions reject overlong and out-of-range forms). -/
def utf8Decode4 (b : Nat) : List Nat → Option (Nat × List Nat)
  | b1 :: b2 :: b3 :: bs3 =>
    if (0x80 ≤ b1 ∧ b1 < 0xC0) ∧ (0x80 ≤ b2 ∧ b2 < 0xC0) ∧ (0x80 ≤ b3 ∧ b3 < 0xC0)
        ∧ (b = 0xF0 → 0x90 ≤ b1) ∧ (b = 0xF4 → b1 < 0x90) then
      some ((((b - 0xF0) * 64 + (b1 - 0x80)) * 64 + (b2 - 0x80)) * 64 + (b3 - 0x80),
        bs3)
    else none
  | _ => none

/-- One step of a strict UTF-8 decoder: decode the first scalar at the head of
the byte list (rejecting overlong forms, surrogates and out-of-range values),
returning the scalar value and the unconsumed rest. -/
def utf8DecodeOne : List Nat → Option (Nat × List Nat)
  | [] => none
  | b :: bs =>
    if b < 0x80 then some (b, bs)
    else if b < 0xC2 then none
    else if b < 0xE0 then utf8Decode2 b bs
    else if b < 0xF0 then utf8Decode3 b bs
    else if b < 0xF5 then utf8Decode4 b bs
    else none

/-- Fuel-driven worker for `utf8DecodeIgnore`.  Every step consumes at least
one byte, so fuel equal to the byte count never runs out. -/
def utf8DecodeIgnoreAux : Nat → List Nat → PyStr
  | 0, _ => []
  | _ + 1, [] => []
  | fuel + 1, b :: bs =>
    match utf8DecodeOne (b :: bs) with
    | some (v, rest) => Char.ofNat v :: utf8DecodeIgnoreAux fuel rest
    | none => utf8DecodeIgnoreAux fuel bs

/-- `bytes.decode("utf-8", errors="ignore")`: decode valid scalar sequences,
drop bytes that do not start one. -/
def utf8DecodeIgnore (bs : List Nat) : PyStr :=
  utf8DecodeIgnoreAux bs.length bs

/-! ### The Python value universe produced by `json.loads`

Integer literals become `int`, fractional/exponent literals become `float`
(kept as an exact scaled decimal `mant * 10 ^ exp`), and the non-standard
constants `NaN` / `Infinity` / `-Infinity` that Python's default decoder
accepts are their own constructors.  Objects are association lists in
insertion order with unique keys (the parser inserts with replace-on-dup,
matching `dict` semantics where a repeated key updates the value in place). -/

inductive Json where
  | null
  | bool (b : Bool)
  | int (n : Int)
  | float (mant : Int) (exp : Int)
  | nan
  | inf (neg : Bool)
  | str (s : PyStr)
  | arr (elems : List Json)
  | obj (members : List (PyStr × Json))
deriving Repr

namespace Json

/-- `isinstance(v, dict)`. -/
def isDict : Json → Bool
  | .obj _ => true
  | _ => false

/-- `isinstance(v, list)`. -/
def isList : Json → Bool
  | .arr _ => true
  | _ => false

/-- `isinstance(v, str)`. -/
def isStr : Json → Bool
  | .str _ => true
  | _ => false

/-- `type(v).__name__` for a JSON-derived Python value. -/
def typeName : Json → PyStr
  | .null => pystr "NoneType"
  | .bool _ => pystr "bool"
  | .int _ => pystr "int"
  | .float _ _ => pystr "float"
  | .nan => pystr "float"
  | .inf _ => pystr "float"
  | .str _ => pystr "str"
  | .arr _ => pystr "list"
  | .obj _ => pystr "dict"

end Json

/-- Lookup in an insertion-ordered association list with unique keys
(`d[k]` / `d.get(k)` on a `dict` built by the JSON decoder). -/
def dictGet (kvs : List (PyStr × Json)) (k : PyStr) : Option Json :=
  match kvs.find? (fun kv => kv.1 = k) with
  | some kv => some kv.2
  | none => none

/-- `d.get(k)` on a parsed JSON object; `none` when the value is not a dict. -/
def Json.get (v : Json) (k : PyStr) : Option Json :=
  match v with
  | .obj kvs => dictGet kvs k
  | _ => none

/-- `k in d` for a parsed JSON object. -/
def Json.hasKey (v : Json) (k : PyStr) : Bool :=
  (v.get k).isSome

/-- `d[k] = v` on a `dict`: replace the value in place when the key exists,
append otherwise. -/
def dictInsert (kvs : List (PyStr × Json)) (k : PyStr) (v : Json) :
    List (PyStr × Json) :=
  match kvs with
  | [] => [(k, v)]
  | (k', v') :: rest =>
    if k' = k then (k', v) :: rest else (k', v') :: dictInsert rest k v

/-! ### `json.loads`

A recursive-descent parser over Python's JSON grammar: strict RFC 8259 JSON
plus the `NaN` / `Infinity` / `-Infinity` constants, rejecting raw control
characters inside strings (`strict=True`), rejecting leading zeros in
numbers, and treating only space / tab / newline / carriage-return as
inter-token whitespace.  The recursion is structural on a fuel counter; the
wrapper passes fuel that a parse can never exhaust (each two fuel units
consume at least one character). -/

/-- JSON inter-token whitespace (`[ \t\n\r]`). -/
def jsonWs (c : Char) : Bool := c = ' ' ∨ c = '\t' ∨ c = '\n' ∨ c = '\r'

/-- Skip inter-token whitespace. -/
def skipJsonWs : PyStr → PyStr
  | c :: cs => if jsonWs c then skipJsonWs cs else c :: cs
  | [] => []

/-- An ASCII decimal digit. -/
def isDigitChar (c : Char) : Bool := '0' ≤ c ∧ c ≤ '9'

/-- Split the longest digit run off the front. -/
def spanDigits : PyStr → PyStr × PyStr
  | c :: cs =>
    if isDigitChar c then
      let (ds, rest) := spanDigits cs
      (c :: ds, rest)
    else ([], c :: cs)
  | [] => ([], [])

/-- Numeric value of a digit run. -/
def digitsVal (ds : PyStr) : Nat :=
  ds.foldl (fun acc c => acc * 10 + (c.toNat - '0'.toNat)) 0

/-- Hex value of one character, if any. -/
def hexDigitVal (c : Char) : Option Nat :=
  if '0' ≤ c ∧ c ≤ '9' then some (c.toNat - '0'.toNat)
  else if 'a' ≤ c ∧ c ≤ 'f' then some (c.toNat - 'a'.toNat + 10)
  else if 'A' ≤ c ∧ c ≤ 'F' then some (c.toNat - 'A'.toNat + 10)
  else none

/-- Value of a `\uXXXX` escape's four hex digits. -/
def hex4Val (a b c d : Char) : Option Nat := do
  let va ← hexDigitVal a
  let vb ← hexDigitVal b
  let vc ← hexDigitVal c
  let vd ← hexDigitVal d
  pure (((va * 16 + vb) * 16 + vc) * 16 + vd)

/-- Normalize a scaled decimal: strip trailing zeros from the mantissa and
send a zero mantissa to exponent zero, so that structural equality of
normalized `float`s coincides with exact value equality. -/
def normFloat (m : Int) (e : Int) : Json :=
  if m = 0 then .float 0 0
  else if m % 10 = 0 then normFloat (m / 10) (e + 1)
  else .float m e
termination_by m.natAbs
decreasing_by
  rename_i hm h10
  have h1 : (10 : Int) ∣ m := Int.dvd_of_emod_eq_zero h10
  have h2 : m / 10 * 10 = m := Int.ediv_mul_cancel h1
  omega

/-- Parse a JSON number per Python's `NUMBER_RE`
(`-?(0|[1-9]\d*)(\.\d+)?([eE][-+]?\d+)?`, maximal munch): an integer literal
yields `int`, any fractional part or exponent yields `float`. -/
def parseJNumber (cs : PyStr) : Option (Json × PyStr) := do
  let neg : Bool := cs.head? = some '-'
  let cs1 : PyStr := if neg then cs.tail else cs
  let (intDs, cs2) := spanDigits cs1
  match intDs with
  | [] => none
  | d0 :: ds0 =>
    -- leading zeros are not part of the number token: `0` only stands alone
    if d0 = '0' ∧ ds0 ≠ [] then none
    else
      let (fracDs, cs3) : PyStr × PyStr :=
        match cs2 with
        | '.' :: r =>
          let (ds, rest) := spanDigits r
          if ds = [] then ([], cs2) else (ds, rest)
        | _ => ([], cs2)
      let expParse : Option (Int × PyStr) :=
        match cs3 with
        | e :: r =>
          if e = 'e' ∨ e = 'E' then
            let sgn : Int := if r.head? = some '-' then -1 else 1
            let r1 : PyStr :=
              if r.head? = some '-' ∨ r.head? = some '+' then r.tail else r
            let (eds, r2) := spanDigits r1
            if eds = [] then none else some (sgn * (digitsVal eds : Int), r2)
          else none
        | [] => none
      let (expVal, cs4, isFloat) : Int × PyStr × Bool :=
        match expParse with
        | some (ev, r) => (ev, r, true)
        | none => (0, cs3, fracDs ≠ [])
      let mag : Nat := digitsVal (intDs ++ fracDs)
      let mant : Int := if neg then -(mag : Int) else (mag : Int)
      if isFloat then
        pure (normFloat mant (expVal - (fracDs.length : Int)), cs4)
      else
        pure (.int mant, cs4)

/-- Parse the body of a JSON string after the opening quote.  Escapes follow
Python's decoder; raw control characters (< U+0020) are rejected
(`strict=True`).  A `\uXXXX` high surrogate followed by a low surrogate
combines into one scalar; an unpaired surrogate escape — which Python keeps
as a lone surrogate code unit, unrepresentable in a Lean `Char` — becomes
U+FFFD. -/
def parseJString : Nat → PyStr → List Char → Option (PyStr × PyStr)
  | 0, _, _ => none
  | _ + 1, acc, '"' :: rest => some (acc.reverse, rest)
  | fuel + 1, acc, '\\' :: esc => do
    match esc with
    | 'u' :: a :: b :: c :: d :: rest => do
      let n ← hex4Val a b c d
      if 0xD800 ≤ n ∧ n < 0xDC00 then
        match rest with
        | '\\' :: 'u' :: a2 :: b2 :: c2 :: d2 :: rest2 => do
          let n2 ← hex4Val a2 b2 c2 d2
          if 0xDC00 ≤ n2 ∧ n2 < 0xE000 then
            let scalar := 0x10000 + (n - 0xD800) * 0x400 + (n2 - 0xDC00)
            parseJString fuel (Char.ofNat scalar :: acc) rest2
          else
            parseJString fuel ('�' :: acc) ('\\' :: 'u' :: a2 :: b2 :: c2 :: d2 :: rest2)
        | _ => parseJString fuel ('�' :: acc) rest
      else if 0xDC00 ≤ n ∧ n < 0xE000 then
        parseJString fuel ('�' :: acc) rest
      else
        parseJString fuel (Char.ofNat n :: acc) rest
    | '"' :: rest => parseJString fuel ('"' :: acc) rest
    | '\\' :: rest => parseJString fuel ('\\' :: acc) rest
    | '/' :: rest => parseJString fuel ('/' :: acc) rest
    | 'b' :: rest => parseJString fuel (Char.ofNat 8 :: acc) rest
    | 'f' :: rest => parseJString fuel (Char.ofNat 12 :: acc) rest
    | 'n' :: rest => parseJString fuel ('\n' :: acc) rest
    | 'r' :: rest => parseJString fuel ('\r' :: acc) rest
    | 't' :: rest => parseJString fuel ('\t' :: acc) rest
    | _ => none
  | fuel + 1, acc, c :: rest =>
    if c.toNat < 0x20 then none else parseJString fuel (c :: acc) rest
  | _ + 1, _, [] => none

mutual

/-- Parse one JSON value (fuel-structural). -/
def parseJValue : Nat → PyStr → Option (Json × PyStr)
  | 0, _ => none
  | fuel + 1, cs =>
    match cs with
    | 'n' :: 'u' :: 'l' :: 'l' :: r => some (.null, r)
    | 't' :: 'r' :: 'u' :: 'e' :: r => some (.bool true, r)
    | 'f' :: 'a' :: 'l' :: 's' :: 'e' :: r => some (.bool false, r)
    | 'N' :: 'a' :: 'N' :: r => some (.nan, r)
    | 'I' :: 'n' :: 'f' :: 'i' :: 'n' :: 'i' :: 't' :: 'y' :: r => some (.inf false, r)
    | '-' :: 'I' :: 'n' :: 'f' :: 'i' :: 'n' :: 'i' :: 't' :: 'y' :: r => some (.inf true, r)
    | '"' :: r => do
      let (s, rest) ← parseJString (r.length + 1) [] r
      pure (.str s, rest)
    | '[' :: r =>
      (match skipJsonWs r with
      | ']' :: rest => some (.arr [], rest)
      | r' => do
        let (es, rest) ← parseJElems fuel r'
        pure (.arr es, rest))
    | '{' :: r =>
      (match skipJsonWs r with
      | '}' :: rest => some (.obj [], rest)
      | r' => do
        let (pairs, rest) ← parseJMembers fuel r'
        pure (.obj (pairs.foldl (fun d kv => dictInsert d kv.1 kv.2) []), rest))
    | c :: rest =>
      if c = '-' ∨ isDigitChar c then parseJNumber (c :: rest) else none
    | [] => none

/-- Parse one-or-more comma-separated array elements up to `]`. -/
def parseJElems : Nat → PyStr → Option (List Json × PyStr)
  | 0, _ => none
  | fuel + 1, cs => do
    let (v, r) ← parseJValue fuel cs
    match skipJsonWs r with
    | ',' :: r' => do
      let (vs, rest) ← parseJElems fuel (skipJsonWs r')
      pure (v :: vs, rest)
    | ']' :: r' => pure ([v], r')
    | _ => none

/-- Parse one-or-more `"key": value` members up to `}`, returning the raw
pair list in source order (duplicates included); the caller folds the pairs
into a dict. -/
def parseJMembers : Nat → PyStr → Option (List (PyStr × Json) × PyStr)
  | 0, _ => none
  | fuel + 1, cs =>
    match cs with
    | '"' :: r => do
      let (key, r1) ← parseJString (r.length + 1) [] r
      match skipJsonWs r1 with
      | ':' :: r2 => do
        let (v, r3) ← parseJValue fuel (skipJsonWs r2)
        match skipJsonWs r3 with
        | ',' :: r4 => do
          let (kvs, rest) ← parseJMembers fuel (skipJsonWs r4)
          pure ((key, v) :: kvs, rest)
        | '\x7d' :: r4 => pure ([(key, v)], r4)
        | _ => none
      | _ => none
    | _ => none

end

/-- `json.loads(s)`, as an `Option`: `none` models `json.JSONDecodeError`.
Leading and trailing whitespace is allowed; anything else after the value is
"Extra data". -/
def pyJsonLoads (s : PyStr) : Option Json := do
  let (v, rest) ← parseJValue (2 * s.length + 2) (skipJsonWs s)
  if skipJsonWs rest = [] then pure v else none

/-! ### Noisy-text JSON extraction (`parser.py` and the `GeminiRunner`
static methods)

Both files scan right-to-left with bracket-depth counting.  `parser.py`
factors the scan into `_find_balanced_span`; `gemini.py` carries its own
copies of the loops.  The two object extractors agree, but the two array
extractors genuinely differ on an unbalanced rightmost `]` (see the C4
theorems), so each is embedded separately and faithfully. -/

/-- `text.rfind(c, 0, end)`: the largest index `i < end` with `text[i] = c`
(`none` for Python's `-1`). -/
def rfindBefore (text : PyStr) (c : Char) : Nat → Option Nat
  | 0 => none
  | e + 1 => if text.get? e = some c then some e else rfindBefore text c e

/-- The `for i in range(last_close, -1, -1)` depth-counting scan shared by
all four extractors: walk indices downward from `i`, incrementing depth on
`cc` and decrementing on `oc`; return the index where the depth balances to
zero, or `none` when the loop runs off the front of the text. -/
def scanOpenIdx (text : PyStr) (oc cc : Char) : Nat → Int → Option Nat
  | 0, depth =>
    match text.get? 0 with
    | some c =>
      if c = cc then none
      else if c = oc then (if depth - 1 = 0 then some 0 else none)
      else none
    | none => none
  | i + 1, depth =>
    match text.get? (i + 1) with
    | some c =>
      if c = cc then scanOpenIdx text oc cc i (depth + 1)
      else if c = oc then
        (if depth - 1 = 0 then some (i + 1) else scanOpenIdx text oc cc i (depth - 1))
      else scanOpenIdx text oc cc i depth
    | none => scanOpenIdx text oc cc i depth

/-- Python slice `l[a:b]`. -/
def sliceList (l : List α) (a b : Nat) : List α := (l.take b).drop a

/-- `parser._find_balanced_span(text, open_char, close_char, search_end)`:
the rightmost balanced span `(start, end)` ending at or before `search_end`,
`none` when there is no close char before `search_end` *or* the rightmost
one never balances. -/
def find_balanced_span (text : PyStr) (oc cc : Char) (searchEnd : Nat) :
    Option (Nat × Nat) :=
  match rfindBefore text cc searchEnd with
  | none => none
  | some lastClose =>
    match scanOpenIdx text oc cc lastClose 0 with
    | some s => some (s, lastClose)
    | none => none

/-- Does a parsed candidate pass `extract_last_json_array`'s validation
(`isinstance(parsed, list) and parsed and isinstance(parsed[0], dict)`)?
Returns the first element when it does. -/
def arrayHeadDict : Option Json → Option Json
  | some (.arr (x :: _)) => if x.isDict then some x else none
  | _ => none

/-- Loop body of `parser.extract_last_json_array` (fuel-structural; the
fuel bounds the iteration count, which the strictly decreasing `search_end`
keeps below the text length). -/
def extract_last_json_array_loop (text : PyStr) : Nat → Nat → Option Json
  | 0, _ => none
  | fuel + 1, searchEnd =>
    match find_balanced_span text '[' ']' searchEnd with
    | none => none
    | some (start, lastClose) =>
      match arrayHeadDict (pyJsonLoads (sliceList text start (lastClose + 1))) with
      | some x => some x
      | none => extract_last_json_array_loop text fuel lastClose

/-- `parser.extract_last_json_array(text)`. -/
def extract_last_json_array (text : PyStr) : Option Json :=
  if text = [] then none
  else extract_last_json_array_loop text (text.length + 1) text.length

/-- `GeminiRunner._extract_last_json_object(text)` (same algorithm as
`parser.extract_last_json_object`): parse the rightmost balanced `\x7b...\x7d`
span, keep it only when it parses to a dict. -/
def gemini_extract_last_json_object (text : PyStr) : Option Json :=
  if text = [] then none
  else
    match rfindBefore text '\x7d' text.length with
    | none => none
    | some lastClose =>
      match scanOpenIdx text '\x7b' '\x7d' lastClose 0 with
      | none => none
      | some start =>
        match pyJsonLoads (sliceList text start (lastClose + 1)) with
        | some v => if v.isDict then some v else none
        | none => none

/-- Loop body of `GeminiRunner._extract_last_json_array`: unlike the
`parser.py` version, a rightmost `]` with no matching `[` (`start == -1`)
does not abort — the search retries further left. -/
def gemini_extract_last_json_array_loop (text : PyStr) : Nat → Nat → Option Json
  | 0, _ => none
  | fuel + 1, searchEnd =>
    match rfindBefore text ']' searchEnd with
    | none => none
    | some lastClose =>
      match scanOpenIdx text '[' ']' lastClose 0 with
      | some start =>
        match arrayHeadDict (pyJsonLoads (sliceList text start (lastClose + 1))) with
        | some x => some x
        | none => gemini_extract_last_json_array_loop text fuel lastClose
      | none => gemini_extract_last_json_array_loop text fuel lastClose

/-- `GeminiRunner._extract_last_json_array(text)`. -/
def gemini_extract_last_json_array (text : PyStr) : Option Json :=
  if text = [] then none
  else gemini_extract_last_json_array_loop text (text.length + 1) text.length

/-- Claim-side description of array extraction, following the spec's words:
walk every index from the right; at an index holding `]` whose depth scan
balances, parse the span; return the first element of the rightmost span
that parses to a non-empty array with a dict head, retrying further left
past candidates that fail; `none` when no candidate anywhere qualifies. -/
def specRightmostValidArray (text : PyStr) : Nat → Option Json
  | 0 => none
  | e + 1 =>
    if text.get? e = some ']' then
      match scanOpenIdx text '[' ']' e 0 with
      | some start =>
        match arrayHeadDict (pyJsonLoads (sliceList text start (e + 1))) with
        | some x => some x
        | none => specRightmostValidArray text e
      | none => specRightmostValidArray text e
    else specRightmostValidArray text e

/-! ### Assorted Python string semantics -/

/-- The character class of Python's `str.strip()` (Unicode whitespace). -/
def pyIsSpace (c : Char) : Bool :=
  let n := c.toNat
  (9 ≤ n ∧ n ≤ 13) ∨ (28 ≤ n ∧ n ≤ 31) ∨ n = 32 ∨ n = 0x85 ∨ n = 0xA0 ∨
    n = 0x1680 ∨ (0x2000 ≤ n ∧ n ≤ 0x200A) ∨ n = 0x2028 ∨ n = 0x2029 ∨
    n = 0x202F ∨ n = 0x205F ∨ n = 0x3000

/-- `s.strip()`: remove leading and trailing whitespace, keep the interior
verbatim. -/
def pyStrip (s : PyStr) : PyStr :=
  ((s.dropWhile pyIsSpace).reverse.dropWhile pyIsSpace).reverse

/-- ASCII digit character for a value below ten. -/
def digitChar (d : Nat) : Char := Char.ofNat (48 + d)

/-- Decimal digits of a natural number (fuel-structural; the wrapper's fuel
can never run out because `n / 10 < n` for `n ≥ 10`). -/
def natReprAux : Nat → Nat → PyStr
  | 0, _ => []
  | fuel + 1, n =>
    if n < 10 then [digitChar n] else natReprAux fuel (n / 10) ++ [digitChar (n % 10)]

/-- `str(n)` for a non-negative integer. -/
def natRepr (n : Nat) : PyStr := natReprAux (n + 1) n

/-- `str(n)` for an integer. -/
def intRepr (n : Int) : PyStr :=
  if n < 0 then '-' :: natRepr (-n).toNat else natRepr n.toNat

/-- Python `==` between a JSON-derived value and an `int` literal: numeric
types (including `bool`, a subclass of `int`, and integral `float`s) compare
by value; every other type is unequal. -/
def pyEqInt (v : Json) (n : Int) : Bool :=
  match v with
  | .int m => m = n
  | .bool b => (if b then (1 : Int) else 0) = n
  | .float m e => if 0 ≤ e then m * 10 ^ e.toNat = n else n * 10 ^ (-e).toNat = m
  | _ => false

/-- Python `==` between a JSON-derived value and a `str` literal. -/
def pyEqStr (v : Json) (s : PyStr) : Bool :=
  match v with
  | .str t => t = s
  | _ => false

/-- Python truthiness of an optional string (`None` and `""` are falsy). -/
def pyTruthy : Option PyStr → Bool
  | none => false
  | some s => s ≠ []

/-! ### Data model (`types.py`) and error taxonomy (`exceptions.py`) -/

/-- `ExecutionMode = Literal["default", "sandbox", "yolo"]`. -/
inductive ExecutionMode where
  | default
  | sandbox
  | yolo
deriving Repr, DecidableEq

/-- `PromptRequest` (validated: non-empty prompt; `model` / `session_id`
non-empty when present — captured as hypotheses where a theorem needs them,
since pydantic enforces them at construction). -/
structure PromptRequest where
  agent : PyStr
  prompt : PyStr
  context : List (PyStr × Json) := []
  execution_mode : ExecutionMode := .default
  model : Option PyStr := none
  session_id : Option PyStr := none
  file_refs : List PyStr := []
deriving Repr

/-- `AgentResponse`: metadata is a `dict[str, Any]` whose values stay in the
JSON value universe. -/
structure AgentResponse where
  agent : PyStr
  output : PyStr
  raw_output : PyStr
  metadata : List (PyStr × Json) := []
deriving Repr

/-- `SubprocessResult`. -/
structure SubprocessResult where
  stdout : PyStr
  stderr : PyStr
  returncode : Int
deriving Repr

/-- The exceptions that can escape the runner pipeline.

* `parseError` — `ParseError(message, raw_output)` from `exceptions.py`.
* `subprocessError` — `SubprocessError(message, stderr, command, returncode)`;
  note that `exceptions.py`'s `__init__` has *no* `stdout` parameter.
* `validationError` — a pydantic `ValidationError` from constructing a model
  with ill-typed fields (e.g. `AgentResponse(metadata=<non-dict>)`).
* `typeError` — Python `TypeError`; raised in particular by the call
  `SubprocessError(..., stdout=stdout, ...)` at `gemini.py:286`, because the
  `SubprocessError.__init__` signature rejects the `stdout` keyword. -/
inductive PyErr where
  | parseError (message : PyStr) (raw_output : PyStr)
  | subprocessError (message : PyStr) (stderr : PyStr)
      (command : Option (List PyStr)) (returncode : Option Int)
  | validationError
  | typeError
deriving Repr

/-! ### The Gemini runner (`runners/gemini.py`) -/

/-- The construction-time state of a `GeminiRunner` that the per-request
code paths read: detected capabilities and env-configured CLI path / default
model.  (CLI detection itself happens once in `__init__` and is outside the
per-request pipeline.) -/
structure GeminiRunner where
  supports_json : Bool
  cli_path : PyStr
  default_model : Option PyStr
deriving Repr

namespace GeminiRunner

/-- `GeminiRunner.build_command(request)`. -/
def build_command (r : GeminiRunner) (request : PromptRequest) : List PyStr :=
  let prompt :=
    if request.file_refs ≠ [] then
      let file_list := List.intercalate (pystr "\n") (request.file_refs.map (fun p => pystr "- " ++ p))
      request.prompt ++ pystr "\n\nFile references:\n" ++ file_list
    else request.prompt
  let command := [r.cli_path, pystr "-p", prompt]
  let command := command ++ (if r.supports_json then [pystr "--output-format", pystr "json"] else [])
  let model := if pyTruthy request.model then request.model else r.default_model
  let command := command ++ (if pyTruthy model then [pystr "--model", model.getD []] else [])
  command ++
    (match request.execution_mode with
    | .sandbox => [pystr "--sandbox"]
    | .yolo => [pystr "--yolo"]
    | .default => [])

/-- `GeminiRunner.parse_output(stdout, stderr)`: direct `json.loads` of the
full stdout, falling back to the last-JSON-object extractor on a decode
error; then validation of the `response` field; the optional `stats` mapping
becomes the metadata verbatim.  A non-dict `stats` value is passed to the
`AgentResponse` constructor, whose pydantic validation rejects it. -/
def parse_output (stdout stderr : PyStr) : Except PyErr AgentResponse :=
  let dataOpt :=
    match pyJsonLoads stdout with
    | some d => some d
    | none => gemini_extract_last_json_object stdout
  match dataOpt with
  | none =>
    .error (.parseError
      (pystr "Invalid JSON from Gemini CLI (stdout may contain non-JSON prefix)") stdout)
  | some data =>
    if ¬ (data.isDict ∧ data.hasKey (pystr "response")) then
      .error (.parseError (pystr "Missing 'response' field in Gemini CLI output") stdout)
    else
      match data.get (pystr "response") with
      | some (.str response_text) =>
        let metadata := (data.get (pystr "stats")).getD (.obj [])
        match metadata with
        | .obj kvs =>
          .ok { agent := pystr "gemini", output := pyStrip response_text,
                raw_output := stdout, metadata := kvs }
        | _ => .error .validationError
      | some other =>
        .error (.parseError
          (pystr "'response' field must be a string, got " ++ other.typeName) stdout)
      | none =>
        .error (.parseError (pystr "Missing 'response' field in Gemini CLI output") stdout)

/-- `GeminiRunner._try_extract_error(stdout, stderr, returncode, command)`:
look for `{"error": {...}}` in stdout JSON, then in stderr via the array and
object extractors; filter the `code == 1 and message == "[object Object]"`
false positive; otherwise the code reaches
`raise SubprocessError(..., stdout=stdout, ...)`, which `TypeError`s because
`SubprocessError.__init__` takes no `stdout` keyword. -/
def try_extract_error (stdout stderr : PyStr) (_returncode : Int)
    (_command : Option (List PyStr)) : Except PyErr Unit :=
  let d0 : Option Json :=
    match pyJsonLoads stdout with
    | some parsed => if parsed.isDict then some parsed else none
    | none => none
  let data : Option Json :=
    match d0 with
    | some d => some d
    | none =>
      match gemini_extract_last_json_array stderr with
      | some d => some d
      | none => gemini_extract_last_json_object stderr
  match data with
  | none => .ok ()
  | some data =>
    match data.get (pystr "error") with
    | some (.obj errKvs) =>
      let code := (dictGet errKvs (pystr "code")).getD (.str (pystr "unknown"))
      let message := (dictGet errKvs (pystr "message")).getD (.str (pystr "unknown error"))
      if pyEqInt code 1 ∧ pyEqStr message (pystr "[object Object]") then .ok ()
      else .error .typeError
    | _ => .ok ()

/-- `GeminiRunner._recover_from_error(stdout, stderr, returncode, command)`:
re-run the success-path parse; on success return a copy whose metadata is
enriched with the recovery markers; on `ParseError` try structured-error
extraction and otherwise report no recovery; any other exception (e.g. the
pydantic `ValidationError` from `parse_output`) propagates. -/
def recover_from_error (stdout stderr : PyStr) (returncode : Int)
    (command : Option (List PyStr)) : Except PyErr (Option AgentResponse) :=
  match parse_output stdout stderr with
  | .ok response =>
    let metadata := dictInsert response.metadata (pystr "recovered_from_error") (.bool true)
    let metadata := dictInsert metadata (pystr "original_exit_code") (.int returncode)
    let metadata := dictInsert metadata (pystr "stderr") (.str stderr)
    .ok (some { agent := response.agent, output := response.output,
                raw_output := response.raw_output, metadata := metadata })
  | .error (.parseError _ _) =>
    match try_extract_error stdout stderr returncode command with
    | .ok () => .ok none
    | .error e => .error e
  | .error e => .error e

end GeminiRunner

/-! ### The Template-Method skeleton (`runners/base.py`) -/

/-- The truncation notice appended by `_apply_output_limit`. -/
def truncationSuffix : PyStr := pystr "\n\n[Output truncated - see full output at temp file]"

/-- `AbstractRunner._apply_output_limit(response)`.  The configured limit
(`NEXUS_OUTPUT_LIMIT_BYTES`, an arbitrary `int`) and the OS-chosen tempfile
name are parameters; the second component of the result is the content
persisted to that tempfile (`none` when nothing is written). -/
def apply_output_limit (limit : Int) (tempName : PyStr) (response : AgentResponse) :
    AgentResponse × Option PyStr :=
  let output_bytes := utf8Encode response.output
  let output_size := output_bytes.length
  if (output_size : Int) ≤ limit then (response, none)
  else
    let suffix_bytes := utf8Len truncationSuffix
    let content_limit := (limit - (suffix_bytes : Int)).toNat
    let truncated_output := utf8DecodeIgnore (output_bytes.take content_limit) ++ truncationSuffix
    let metadata := dictInsert response.metadata (pystr "truncated") (.bool true)
    let metadata := dictInsert metadata (pystr "full_output_path") (.str tempName)
    let metadata := dictInsert metadata (pystr "original_size_bytes") (.int output_size)
    let metadata := dictInsert metadata (pystr "truncated_size_bytes")
      (.int (utf8Len truncated_output))
    ({ agent := response.agent, output := truncated_output,
       raw_output := response.raw_output, metadata := metadata },
     some response.output)

/-- `AbstractRunner.run(request)` specialised to the `GeminiRunner`, with the
subprocess execution result supplied as an input.  Note `base.py:96` calls
`_recover_from_error` without the `command` argument, so a structured-error
`SubprocessError` raised inside recovery would carry `command=None`. -/
def GeminiRunner.run (r : GeminiRunner) (limit : Int) (tempName : PyStr)
    (request : PromptRequest) (result : SubprocessResult) :
    Except PyErr (AgentResponse × Option PyStr) :=
  let command := r.build_command request
  if result.returncode ≠ 0 then
    match GeminiRunner.recover_from_error result.stdout result.stderr result.returncode none with
    | .error e => .error e
    | .ok (some recovered) => .ok (apply_output_limit limit tempName recovered)
    | .ok none =>
      .error (.subprocessError
        (pystr "CLI command failed with exit code " ++ intRepr result.returncode)
        result.stderr (some command) (some result.returncode))
  else
    match GeminiRunner.parse_output result.stdout result.stderr with
    | .ok response => .ok (apply_output_limit limit tempName response)
    | .error e => .error e

/-! ### Batch data model and orchestration (`types.py`, `server.py`) -/

/-- `AgentTask` (validated at construction: agent and prompt non-empty). -/
structure AgentTask where
  agent : PyStr
  prompt : PyStr
  label : Option PyStr := none
  context : List (PyStr × Json) := []
  execution_mode : ExecutionMode := .default
  model : Option PyStr := none
deriving Repr

/-- `AgentTaskResult` record shape; the validated constructor is
`mkAgentTaskResult`. -/
structure AgentTaskResult where
  label : PyStr
  output : Option PyStr := none
  error : Option PyStr := none
deriving Repr, DecidableEq

/-- The derived `success` property: true iff `output` is set. -/
def AgentTaskResult.success (r : AgentTaskResult) : Bool := r.output.isSome

/-- `AgentTaskResult(...)`: pydantic construction running the
`exactly_one_of_output_or_error` model validator. -/
def mkAgentTaskResult (label : PyStr) (output error : Option PyStr) :
    Except PyErr AgentTaskResult :=
  if output.isSome ∧ error.isSome then .error .validationError
  else if output = none ∧ error = none then .error .validationError
  else .ok { label := label, output := output, error := error }

/-- `MultiPromptResponse` record shape; `mkMultiPromptResponse` runs the
`compute_counts` validator, which overwrites the count fields from the
results list. -/
structure MultiPromptResponse where
  results : List AgentTaskResult
  total : Nat
  succeeded : Nat
  failed : Nat
deriving Repr

/-- `MultiPromptResponse(results=...)`: the `compute_counts` model validator
derives `total`/`succeeded`/`failed` from the results list, ignoring any
supplied values. -/
def mkMultiPromptResponse (results : List AgentTaskResult) : MultiPromptResponse :=
  let total := results.length
  let succeeded := (results.filter (fun r => r.success)).length
  { results := results, total := total, succeeded := succeeded, failed := total - succeeded }

/-- `PromptRequest(...)` construction as performed by `batch_prompt`'s
per-task body: pydantic rejects an empty prompt and an empty-string model
(`min_length=1`). -/
def mkPromptRequest (agent prompt : PyStr) (context : List (PyStr × Json))
    (mode : ExecutionMode) (model : Option PyStr) : Except PyErr PromptRequest :=
  if prompt = [] then .error .validationError
  else if model = some [] then .error .validationError
  else .ok { agent := agent, prompt := prompt, context := context,
             execution_mode := mode, model := model }

/-- The probed label `f"{base}-{n}"`. -/
def labelName (base : PyStr) (n : Nat) : PyStr := base ++ '-' :: natRepr n

/-- The `while f"{base}-{n}" in reserved: n += 1` probe from
`_assign_labels`, fuel-structural.  `reserved.length + 1` fuel always finds
a free name (pigeonhole: the probed names are distinct), so the fuel-out
branch is unreachable from `assign_labels`. -/
def probeLabel (reserved : List PyStr) (base : PyStr) : Nat → Nat → PyStr
  | 0, n => labelName base n
  | fuel + 1, n =>
    if labelName base n ∈ reserved then probeLabel reserved base fuel (n + 1)
    else labelName base n

/-- The per-task pass of `_assign_labels`, threading the reserved-label set
(modelled as a list queried only through membership). -/
def assignLabelsGo : List AgentTask → List PyStr → List AgentTask
  | [], _ => []
  | t :: rest, reserved =>
    match t.label with
    | some _ => t :: assignLabelsGo rest reserved
    | none =>
      let base := t.agent
      if base ∉ reserved then
        { t with label := some base } :: assignLabelsGo rest (base :: reserved)
      else
        let label := probeLabel reserved base (reserved.length + 1) 2
        { t with label := some label } :: assignLabelsGo rest (label :: reserved)

/-- `server._assign_labels(tasks)`: reserve all explicit labels, then
auto-assign agent-derived labels in input order. -/
def assign_labels (tasks : List AgentTask) : List AgentTask :=
  assignLabelsGo tasks (tasks.filterMap (fun t => t.label))

/-- The `try:` body of `batch_prompt._run_single` for one labelled task —
`PromptRequest` construction followed by runner creation and `run()`, the
latter two abstracted as an outcome oracle `runTask` (they spawn an external
subprocess).  `.error` carries `str(e)`. -/
def run_single (runTask : AgentTask → PromptRequest → Except PyStr PyStr)
    (strValidationError : PyStr) (t : AgentTask) : AgentTaskResult :=
  let body : Except PyStr PyStr :=
    match mkPromptRequest t.agent t.prompt t.context t.execution_mode t.model with
    | .error _ => .error strValidationError
    | .ok request => runTask t request
  match body with
  | .ok out => { label := t.label.getD [], output := some out, error := none }
  | .error msg => { label := t.label.getD [], output := none, error := some msg }

/-- `server.batch_prompt(tasks, ...)`: label, fan out, convert each task's
outcome to an `AgentTaskResult` (exceptions per task, never propagated),
aggregate in input order with derived counts.  The concurrency semaphore
and progress sink affect scheduling only, not the returned value
(`asyncio.gather` preserves argument order), so the value-level model is a
map over the labelled tasks. -/
def batch_prompt (runTask : AgentTask → PromptRequest → Except PyStr PyStr)
    (strValidationError : PyStr) (tasks : List AgentTask) : MultiPromptResponse :=
  let labelled := assign_labels tasks
  mkMultiPromptResponse (labelled.map (run_single runTask strValidationError))

/-- Numeric value of a decimal digit string (left fold), the inverse of
`natRepr`; used to prove that distinct numbers get distinct probed labels. -/
def readNat (ds : PyStr) : Nat :=
  ds.foldl (fun a c => a * 10 + (c.toNat - 48)) 0

/-- The reserved-or-probed label `_assign_labels` gives one unlabeled task,
as a function of the reserved set at that point. -/
def chooseLabel (res : List PyStr) (base : PyStr) : PyStr :=
  if base ∉ res then base else probeLabel res base (res.length + 1) 2

/-- The threaded reserved set of `assignLabelsGo` after processing the first
`i` tasks. -/
def assignLabelsGoRes : List AgentTask → List PyStr → Nat → List PyStr
  | _, res, 0 => res
  | [], res, _ + 1 => res
  | t :: rest, res, i + 1 =>
    match t.label with
    | some _ => assignLabelsGoRes rest res i
    | none =>
      if t.agent ∉ res then assignLabelsGoRes rest (t.agent :: res) i
      else assignLabelsGoRes rest ((probeLabel res t.agent (res.length + 1) 2) :: res) i

/-- Claim-side description of the reserved set before task `i`: every
explicitly supplied label, plus every label carried by an earlier output
task (spec: "either because another task explicitly chose it, or a prior
unlabeled task of the same agent already claimed it"). -/
def reservedAt (tasks : List AgentTask) (i : Nat) : List PyStr :=
  tasks.filterMap (fun t => t.label) ++
    ((assign_labels tasks).take i).filterMap (fun t => t.label)

/-! # Theorems -/

/-! ### General-purpose lemmas -/

theorem toNat_ofNat_valid (n : Nat) (h : n.isValidChar) : (Char.ofNat n).toNat = n := by
  unfold Char.ofNat
  rw [dif_pos h]
  rfl

theorem digitChar_toNat (d : Nat) (h : d < 10) : (digitChar d).toNat = 48 + d := by
  have : (48 + d).isValidChar := Or.inl (by omega)
  exact toNat_ofNat_valid _ this

theorem natReprAux_fuel (f₁ f₂ n : Nat) (h₁ : n < f₁) (h₂ : n < f₂) :
    natReprAux f₁ n = natReprAux f₂ n := by
  induction f₁ generalizing f₂ n with
  | zero => omega
  | succ f₁ ih =>
    cases f₂ with
    | zero => omega
    | succ f₂ =>
      simp only [natReprAux]
      by_cases h10 : n < 10
      · simp [h10]
      · have hd : n / 10 < n := Nat.div_lt_self (by omega) (by omega)
        simp only [if_neg h10]
        rw [ih f₂ (n / 10) (by omega) (by omega)]

theorem natRepr_small (n : Nat) (h10 : n < 10) : natRepr n = [digitChar n] := by
  simp [natRepr, natReprAux, h10]

theorem natRepr_step (n : Nat) (h10 : ¬ n < 10) :
    natRepr n = natRepr (n / 10) ++ [digitChar (n % 10)] := by
  have hd : n / 10 < n := Nat.div_lt_self (by omega) (by omega)
  have e2 : natRepr n = if n < 10 then [digitChar n]
      else natReprAux n (n / 10) ++ [digitChar (n % 10)] := rfl
  rw [e2, if_neg h10]
  congr 1
  show natReprAux n (n / 10) = natReprAux (n / 10 + 1) (n / 10)
  exact natReprAux_fuel n (n / 10 + 1) (n / 10) (by omega) (by omega)

theorem readNat_natRepr (n : Nat) : readNat (natRepr n) = n := by
  induction n using Nat.strong_induction_on with
  | _ n ih =>
    by_cases h10 : n < 10
    · simp [natRepr_small n h10, readNat, digitChar_toNat n h10]
    · have hd : n / 10 < n := Nat.div_lt_self (by omega) (by omega)
      have hm : n % 10 < 10 := Nat.mod_lt _ (by omega)
      rw [natRepr_step n h10]
      show List.foldl (fun a c => a * 10 + (c.toNat - 48)) 0
        (natRepr (n / 10) ++ [digitChar (n % 10)]) = n
      rw [List.foldl_append]
      simp only [List.foldl_cons, List.foldl_nil]
      have hr : List.foldl (fun a c => a * 10 + (c.toNat - 48)) 0 (natRepr (n / 10)) = n / 10 :=
        ih (n / 10) hd
      rw [hr, digitChar_toNat _ hm]
      omega

theorem natRepr_injective : Function.Injective natRepr := by
  intro a b h
  have := readNat_natRepr a
  rw [h, readNat_natRepr] at this
  omega

theorem labelName_inj (base : PyStr) {n m : Nat} (h : labelName base n = labelName base m) :
    n = m := by
  unfold labelName at h
  have h2 : '-' :: natRepr n = '-' :: natRepr m := List.append_cancel_left h
  exact natRepr_injective (List.cons_injective h2)

theorem dictGet_insert_self (d : List (PyStr × Json)) (k : PyStr) (v : Json) :
    dictGet (dictInsert d k v) k = some v := by
  induction d with
  | nil => simp [dictInsert, dictGet, List.find?]
  | cons kv rest ih =>
    obtain ⟨k', v'⟩ := kv
    by_cases hk : k' = k
    · simp [dictInsert, hk, dictGet, List.find?]
    · simp only [dictInsert, if_neg hk]
      simpa [dictGet, List.find?, hk] using ih

theorem dictGet_insert_ne (d : List (PyStr × Json)) (k k' : PyStr) (v : Json)
    (h : k' ≠ k) : dictGet (dictInsert d k' v) k = dictGet d k := by
  induction d with
  | nil => simp [dictInsert, dictGet, List.find?, h]
  | cons kv rest ih =>
    obtain ⟨k₀, v₀⟩ := kv
    by_cases hk : k₀ = k'
    · subst hk
      simp [dictInsert, dictGet, List.find?, h]
    · simp only [dictInsert, if_neg hk]
      by_cases hk2 : k₀ = k
      · simp [dictGet, List.find?, hk2]
      · simpa [dictGet, List.find?, hk2] using ih

/-! ### C7 — batch result data-model invariants -/

/-- **C7.** Every constructible `AgentTaskResult` has exactly one of
`output`/`error` set and `success` iff `output` is set; every constructible
`MultiPromptResponse` has `total = len(results)`,
`succeeded = count(success)`, and `succeeded + failed = total`. -/
theorem claim_C7 :
    (∀ (label : PyStr) (output error : Option PyStr) (r : AgentTaskResult),
      mkAgentTaskResult label output error = .ok r →
        ((r.output.isSome ∧ r.error = none) ∨ (r.output = none ∧ r.error.isSome)) ∧
        ¬ (r.output.isSome ∧ r.error.isSome) ∧ ¬ (r.output = none ∧ r.error = none) ∧
        (r.success = true ↔ r.output.isSome)) ∧
    (∀ results : List AgentTaskResult,
      (mkMultiPromptResponse results).results = results ∧
      (mkMultiPromptResponse results).total = results.length ∧
      (mkMultiPromptResponse results).succeeded =
        (results.filter (fun r => r.success)).length ∧
      (mkMultiPromptResponse results).succeeded + (mkMultiPromptResponse results).failed =
        (mkMultiPromptResponse results).total) := by
  constructor
  · intro label output error r h
    rcases output with _ | o
    · rcases error with _ | e
      · simp [mkAgentTaskResult] at h
      · simp [mkAgentTaskResult] at h
        subst h
        exact ⟨Or.inr ⟨rfl, by simp⟩, by simp, by simp, by simp [AgentTaskResult.success]⟩
    · rcases error with _ | e
      · simp [mkAgentTaskResult] at h
        subst h
        exact ⟨Or.inl ⟨by simp, rfl⟩, by simp, by simp, by simp [AgentTaskResult.success]⟩
      · simp [mkAgentTaskResult] at h
  · intro results
    refine ⟨rfl, rfl, rfl, ?_⟩
    simp only [mkMultiPromptResponse]
    have : (results.filter (fun r => r.success)).length ≤ results.length :=
      List.length_filter_le _ _
    omega

/-- Witness for C7 at concrete inputs. -/
theorem claim_C7_witness :
    ((⟨pystr "t", some (pystr "ok"), none⟩ : AgentTaskResult).success = true) ∧
    (mkMultiPromptResponse
        [⟨pystr "t", some (pystr "ok"), none⟩, ⟨pystr "u", none, some (pystr "boom")⟩]).total
      = 2 := by
  constructor
  · have h := (claim_C7.1 (pystr "t") (some (pystr "ok")) none
      ⟨pystr "t", some (pystr "ok"), none⟩ (by rfl)).2.2.2
    exact h.mpr (by simp)
  · have h := (claim_C7.2
      [⟨pystr "t", some (pystr "ok"), none⟩, ⟨pystr "u", none, some (pystr "boom")⟩]).2.1
    simpa using h

/-! ### C9 — Gemini command building -/

/-- **C9.** `build_command` appends file references to the prompt text (never
as separate argv entries — the argv length is independent of how many there
are), adds the structured-output flag only when capabilities support JSON,
resolves the model flag as request model > env default model > nothing, and
emits exactly one mode flag (`--sandbox` for sandbox, `--yolo` for yolo,
nothing for default), placed after the model flag.  The hypothesis is the
`PromptRequest` pydantic validation (`model` has `min_length=1`). -/
theorem claim_C9 (r : GeminiRunner) (request : PromptRequest)
    (hm : request.model ≠ some []) :
    r.build_command request =
      [r.cli_path, pystr "-p",
        (if request.file_refs ≠ [] then
          request.prompt ++ pystr "\n\nFile references:\n" ++
            List.intercalate (pystr "\n") (request.file_refs.map (fun p => pystr "- " ++ p))
         else request.prompt)]
      ++ (if r.supports_json then [pystr "--output-format", pystr "json"] else [])
      ++ (match request.model, r.default_model with
          | some m, _ => [pystr "--model", m]
          | none, some d => if d = [] then [] else [pystr "--model", d]
          | none, none => [])
      ++ (match request.execution_mode with
          | .default => []
          | .sandbox => [pystr "--sandbox"]
          | .yolo => [pystr "--yolo"]) ∧
    (r.build_command request).length =
      3 + (if r.supports_json then 2 else 0)
        + (match request.model, r.default_model with
           | some _, _ => 2
           | none, some d => if d = [] then 0 else 2
           | none, none => 0)
        + (match request.execution_mode with
           | .default => 0 | .sandbox => 1 | .yolo => 1) := by
  have key : r.build_command request =
      [r.cli_path, pystr "-p",
        (if request.file_refs ≠ [] then
          request.prompt ++ pystr "\n\nFile references:\n" ++
            List.intercalate (pystr "\n") (request.file_refs.map (fun p => pystr "- " ++ p))
         else request.prompt)]
      ++ (if r.supports_json then [pystr "--output-format", pystr "json"] else [])
      ++ (match request.model, r.default_model with
          | some m, _ => [pystr "--model", m]
          | none, some d => if d = [] then [] else [pystr "--model", d]
          | none, none => [])
      ++ (match request.execution_mode with
          | .default => []
          | .sandbox => [pystr "--sandbox"]
          | .yolo => [pystr "--yolo"]) := by
    rcases hreq : request.model with _ | m
    · rcases hdef : r.default_model with _ | d
      · simp [GeminiRunner.build_command, pyTruthy, hreq, hdef] <;>
          (cases request.execution_mode <;> rfl)
      · by_cases hd : d = []
        · simp [GeminiRunner.build_command, pyTruthy, hreq, hdef, hd] <;>
            (cases request.execution_mode <;> rfl)
        · simp [GeminiRunner.build_command, pyTruthy, hreq, hdef, hd] <;>
            (cases request.execution_mode <;> rfl)
    · have hm' : m ≠ [] := fun h => hm (by rw [hreq, h])
      simp [GeminiRunner.build_command, pyTruthy, hreq, hm'] <;>
        (cases request.execution_mode <;> rfl)
  refine ⟨key, ?_⟩
  rw [key]
  rcases request.model with _ | m <;> rcases r.default_model with _ | d <;>
    cases r.supports_json <;> cases request.execution_mode <;>
    simp [List.length_append] <;> split_ifs <;> simp

/-- Witness for C9: the spec's concrete expectation — `yolo` mode with
`model="x"` yields both flags, model before mode. -/
theorem claim_C9_witness :
    GeminiRunner.build_command ⟨true, pystr "gemini", none⟩
      { agent := pystr "gemini", prompt := pystr "test", execution_mode := .yolo,
        model := some (pystr "x") } =
      [pystr "gemini", pystr "-p", pystr "test", pystr "--output-format", pystr "json",
       pystr "--model", pystr "x", pystr "--yolo"] := by
  have h := (claim_C9 ⟨true, pystr "gemini", none⟩
    { agent := pystr "gemini", prompt := pystr "test", execution_mode := .yolo,
      model := some (pystr "x") } (by simp [pystr])).1
  rw [h]
  rfl

/-! ### C10 — non-mapping `stats` escapes as a validation error -/

/-- **C10.** When stdout is valid JSON with a string `response` but a
non-mapping `stats`, `parse_output` does not raise a `ParseError`: the
`AgentResponse` construction fails pydantic validation, and that error is
not caught by the recovery path's `except ParseError`, so it propagates out
of `run()`. -/
theorem claim_C10 (stdout stderr : PyStr) (d stats : Json) (s : PyStr)
    (hload : pyJsonLoads stdout = some d)
    (hresp : d.get (pystr "response") = some (.str s))
    (hstats : d.get (pystr "stats") = some stats)
    (hnd : stats.isDict = false) :
    GeminiRunner.parse_output stdout stderr = .error .validationError ∧
    (∀ msg raw, GeminiRunner.parse_output stdout stderr ≠ .error (.parseError msg raw)) ∧
    (∀ (r : GeminiRunner) (limit : Int) (tmp : PyStr) (request : PromptRequest) (rc : Int),
      rc ≠ 0 →
      GeminiRunner.run r limit tmp request ⟨stdout, stderr, rc⟩ = .error .validationError) := by
  have hdict : d.isDict = true := by
    cases d <;> simp [Json.get] at hresp <;> rfl
  have hkey : d.hasKey (pystr "response") = true := by
    simp [Json.hasKey, hresp]
  have hparse : GeminiRunner.parse_output stdout stderr = .error .validationError := by
    unfold GeminiRunner.parse_output
    rw [hload]
    simp only [hdict, hkey, and_self, not_true_eq_false, if_false, hresp, hstats,
      Option.getD_some]
    cases stats <;> simp [Json.isDict] at hnd ⊢
  refine ⟨hparse, ?_, ?_⟩
  · intro msg raw h
    rw [hparse] at h
    exact absurd h (by simp)
  · intro r limit tmp request rc hrc
    unfold GeminiRunner.run
    rw [if_pos (by simpa using hrc)]
    unfold GeminiRunner.recover_from_error
    rw [hparse]

/-- Witness for C10: stdout `{"response": "x", "stats": "s"}` with exit code 1. -/
theorem claim_C10_witness :
    GeminiRunner.run ⟨true, pystr "gemini", none⟩ 50000 (pystr "/tmp/full")
        { agent := pystr "gemini", prompt := pystr "test" }
        ⟨pystr "\x7b\"response\": \"x\", \"stats\": \"s\"\x7d", pystr "", 1⟩ =
      .error .validationError := by
  have h := (claim_C10 (pystr "\x7b\"response\": \"x\", \"stats\": \"s\"\x7d") (pystr "")
    (.obj [(pystr "response", .str (pystr "x")), (pystr "stats", .str (pystr "s"))])
    (.str (pystr "s")) (pystr "x") (by rfl) (by rfl) (by rfl) (by rfl)).2.2
  exact h ⟨true, pystr "gemini", none⟩ 50000 (pystr "/tmp/full")
    { agent := pystr "gemini", prompt := pystr "test" } 1 (by decide)

/-! ### C1 — recovery from a non-zero exit with parseable stdout -/

/-- **C1.** When the subprocess exits non-zero but stdout parses under the
success-path parse rule, `run()` succeeds with the recovered response: the
metadata carries `recovered_from_error=true`, the original exit code and the
captured stderr, and the output-size limiting step is still applied to the
recovered response before it is returned (the returned metadata keeps all
three markers in both the under-limit and truncation branches). -/
theorem claim_C1 (r : GeminiRunner) (limit : Int) (tmp : PyStr) (request : PromptRequest)
    (stdout stderr : PyStr) (rc : Int) (resp : AgentResponse)
    (hrc : rc ≠ 0)
    (hparse : GeminiRunner.parse_output stdout stderr = .ok resp) :
    GeminiRunner.run r limit tmp request ⟨stdout, stderr, rc⟩ =
      .ok (apply_output_limit limit tmp
        { agent := resp.agent, output := resp.output, raw_output := resp.raw_output,
          metadata := dictInsert (dictInsert (dictInsert resp.metadata
              (pystr "recovered_from_error") (.bool true))
              (pystr "original_exit_code") (.int rc))
              (pystr "stderr") (.str stderr) }) ∧
    (∀ out persisted,
      GeminiRunner.run r limit tmp request ⟨stdout, stderr, rc⟩ = .ok (out, persisted) →
      dictGet out.metadata (pystr "recovered_from_error") = some (.bool true) ∧
      dictGet out.metadata (pystr "original_exit_code") = some (.int rc) ∧
      dictGet out.metadata (pystr "stderr") = some (.str stderr)) := by
  set recovered : AgentResponse :=
    { agent := resp.agent, output := resp.output, raw_output := resp.raw_output,
      metadata := dictInsert (dictInsert (dictInsert resp.metadata
          (pystr "recovered_from_error") (.bool true))
          (pystr "original_exit_code") (.int rc))
          (pystr "stderr") (.str stderr) } with hrec
  have hrun : GeminiRunner.run r limit tmp request ⟨stdout, stderr, rc⟩ =
      .ok (apply_output_limit limit tmp recovered) := by
    unfold GeminiRunner.run
    rw [if_pos (by simpa using hrc)]
    unfold GeminiRunner.recover_from_error
    rw [hparse]
  -- the three markers survive in `recovered` …
  have hm1 : dictGet recovered.metadata (pystr "recovered_from_error") = some (.bool true) := by
    rw [hrec]
    show dictGet (dictInsert (dictInsert (dictInsert _ _ _) _ _) _ _) _ = _
    rw [dictGet_insert_ne _ _ _ _ (by decide), dictGet_insert_ne _ _ _ _ (by decide),
      dictGet_insert_self]
  have hm2 : dictGet recovered.metadata (pystr "original_exit_code") = some (.int rc) := by
    rw [hrec]
    show dictGet (dictInsert (dictInsert (dictInsert _ _ _) _ _) _ _) _ = _
    rw [dictGet_insert_ne _ _ _ _ (by decide), dictGet_insert_self]
  have hm3 : dictGet recovered.metadata (pystr "stderr") = some (.str stderr) := by
    rw [hrec]
    show dictGet (dictInsert (dictInsert (dictInsert _ _ _) _ _) _ _) _ = _
    rw [dictGet_insert_self]
  -- … and through `apply_output_limit`, whose truncation branch only adds
  -- the four disjoint truncation keys.
  have hout : ∀ k v, dictGet recovered.metadata k = some v →
      k ≠ pystr "truncated" → k ≠ pystr "full_output_path" →
      k ≠ pystr "original_size_bytes" → k ≠ pystr "truncated_size_bytes" →
      dictGet (apply_output_limit limit tmp recovered).1.metadata k = some v := by
    intro k v hk h1 h2 h3 h4
    unfold apply_output_limit
    by_cases hlim : ((utf8Encode recovered.output).length : Int) ≤ limit
    · simpa [hlim] using hk
    · simp only [hlim, if_false]
      rw [dictGet_insert_ne _ _ _ _ (Ne.symm h4), dictGet_insert_ne _ _ _ _ (Ne.symm h3),
        dictGet_insert_ne _ _ _ _ (Ne.symm h2), dictGet_insert_ne _ _ _ _ (Ne.symm h1)]
      exact hk
  refine ⟨hrun, ?_⟩
  intro out persisted heq
  rw [hrun] at heq
  have hpair : (apply_output_limit limit tmp recovered) = (out, persisted) := by
    simpa using heq
  have hout' : out = (apply_output_limit limit tmp recovered).1 := by
    rw [hpair]
  subst hout'
  exact ⟨hout _ _ hm1 (by decide) (by decide) (by decide) (by decide),
    hout _ _ hm2 (by decide) (by decide) (by decide) (by decide),
    hout _ _ hm3 (by decide) (by decide) (by decide) (by decide)⟩

/-- Witness for C1: the spec's end-to-end scenario — exit code 1 with stdout
`{"response": "partial", "stats": {}}` recovers successfully with the three
metadata markers. -/
theorem claim_C1_witness :
    GeminiRunner.run ⟨true, pystr "gemini", none⟩ 50000 (pystr "/tmp/full")
        { agent := pystr "gemini", prompt := pystr "test" }
        ⟨pystr "\x7b\"response\": \"partial\", \"stats\": \x7b\x7d\x7d", pystr "boom", 1⟩ =
      .ok (⟨pystr "gemini", pystr "partial",
            pystr "\x7b\"response\": \"partial\", \"stats\": \x7b\x7d\x7d",
            [(pystr "recovered_from_error", .bool true),
             (pystr "original_exit_code", .int 1),
             (pystr "stderr", .str (pystr "boom"))]⟩, none) := by
  have h := (claim_C1 ⟨true, pystr "gemini", none⟩ 50000 (pystr "/tmp/full")
    { agent := pystr "gemini", prompt := pystr "test" }
    (pystr "\x7b\"response\": \"partial\", \"stats\": \x7b\x7d\x7d") (pystr "boom") 1
    ⟨pystr "gemini", pystr "partial",
      pystr "\x7b\"response\": \"partial\", \"stats\": \x7b\x7d\x7d", []⟩
    (by decide) (by rfl)).1
  rw [h]
  rfl

/-! ### C3 — structured-error extraction and the sentinel filter -/

/-- **C3 (evaluation at the failing input).**  The sentinel false positive
(`code == 1`, `message == "[object Object]"`) is indeed filtered: recovery
falls through to the generic `SubprocessError` carrying the exit code, the
stderr, and the executed command.  But for any *other* extracted structured
error (here the spec's 429 scenario) the code does **not** raise the
descriptive structured error: `gemini.py:286` calls
`SubprocessError(..., stdout=stdout, ...)` while `exceptions.py`'s
`SubprocessError.__init__` has no `stdout` parameter, so the raise site
itself raises `TypeError`, which propagates out of `run()`. -/
theorem claim_C3 :
    (GeminiRunner.run ⟨true, pystr "gemini", none⟩ 50000 (pystr "/tmp/full")
        { agent := pystr "gemini", prompt := pystr "test" }
        ⟨pystr "\x7b\"error\": \x7b\"code\": 1, \"message\": \"[object Object]\", \"status\": \"\"\x7d\x7d",
          pystr "err", 1⟩ =
      .error (.subprocessError (pystr "CLI command failed with exit code 1") (pystr "err")
        (some [pystr "gemini", pystr "-p", pystr "test", pystr "--output-format", pystr "json"])
        (some 1))) ∧
    (GeminiRunner.run ⟨true, pystr "gemini", none⟩ 50000 (pystr "/tmp/full")
        { agent := pystr "gemini", prompt := pystr "test" }
        ⟨pystr "\x7b\"error\": \x7b\"code\": 429, \"message\": \"quota\", \"status\": \"RESOURCE_EXHAUSTED\"\x7d\x7d",
          pystr "", 1⟩ =
      .error .typeError) :=
  ⟨rfl, rfl⟩

/-! ### C4 — rightmost-valid-candidate array extraction -/

/-- **C4 (evaluation at the failing input).**  On text whose rightmost `]`
sits inside a string value and has no matching `[`,
`parser.extract_last_json_array` returns `none` — its `_find_balanced_span`
gives up instead of retrying further left — while the claim (and the
sibling implementation `GeminiRunner._extract_last_json_array`, and the
claim-side description `specRightmostValidArray`) yield `{"a": 1}`.  The
claim's positive example and the empty-string case do hold. -/
theorem claim_C4 :
    (extract_last_json_array (pystr "[\x7b\"a\":1\x7d] \"x]y\"") = none) ∧
    (gemini_extract_last_json_array (pystr "[\x7b\"a\":1\x7d] \"x]y\"") =
      some (.obj [(pystr "a", .int 1)])) ∧
    (specRightmostValidArray (pystr "[\x7b\"a\":1\x7d] \"x]y\"")
        (pystr "[\x7b\"a\":1\x7d] \"x]y\"").length = some (.obj [(pystr "a", .int 1)])) ∧
    (extract_last_json_array (pystr "[\x7b\"a\":1\x7d]\ntext\n[\x7b\"b\":2\x7d]") =
      some (.obj [(pystr "b", .int 2)])) ∧
    (extract_last_json_array (pystr "") = none) :=
  ⟨rfl, rfl, rfl, rfl, rfl⟩

/-! ### C8 — the success-path parse rule -/

/-- **C8.**  `parse_output` uses the direct `json.loads` result when it
parses, falling back to the last-JSON-object extractor only on a decode
error; it fails with a `ParseError` carrying the raw stdout when neither
source yields a mapping containing `response`, or when `response` is not a
string (naming the actual type found); on success the output is the
`response` string stripped of leading/trailing whitespace and a mapping
`stats` value becomes the metadata verbatim (the empty mapping when absent). -/
theorem claim_C8 (stdout stderr : PyStr) :
    (∀ d s kvs,
      (pyJsonLoads stdout = some d ∨
        (pyJsonLoads stdout = none ∧ gemini_extract_last_json_object stdout = some d)) →
      d.get (pystr "response") = some (.str s) →
      d.get (pystr "stats") = some (.obj kvs) →
      GeminiRunner.parse_output stdout stderr =
        .ok { agent := pystr "gemini", output := pyStrip s, raw_output := stdout,
              metadata := kvs }) ∧
    (∀ d s,
      (pyJsonLoads stdout = some d ∨
        (pyJsonLoads stdout = none ∧ gemini_extract_last_json_object stdout = some d)) →
      d.get (pystr "response") = some (.str s) →
      d.get (pystr "stats") = none →
      GeminiRunner.parse_output stdout stderr =
        .ok { agent := pystr "gemini", output := pyStrip s, raw_output := stdout,
              metadata := [] }) ∧
    (pyJsonLoads stdout = none → gemini_extract_last_json_object stdout = none →
      GeminiRunner.parse_output stdout stderr =
        .error (.parseError
          (pystr "Invalid JSON from Gemini CLI (stdout may contain non-JSON prefix)") stdout)) ∧
    (∀ d,
      (pyJsonLoads stdout = some d ∨
        (pyJsonLoads stdout = none ∧ gemini_extract_last_json_object stdout = some d)) →
      (d.isDict = false ∨ d.get (pystr "response") = none) →
      GeminiRunner.parse_output stdout stderr =
        .error (.parseError (pystr "Missing 'response' field in Gemini CLI output") stdout)) ∧
    (∀ d v,
      (pyJsonLoads stdout = some d ∨
        (pyJsonLoads stdout = none ∧ gemini_extract_last_json_object stdout = some d)) →
      d.get (pystr "response") = some v →
      v.isStr = false →
      GeminiRunner.parse_output stdout stderr =
        .error (.parseError
          (pystr "'response' field must be a string, got " ++ v.typeName) stdout)) := by
  have hsrc : ∀ d : Json,
      (pyJsonLoads stdout = some d ∨
        (pyJsonLoads stdout = none ∧ gemini_extract_last_json_object stdout = some d)) →
      (match pyJsonLoads stdout with
        | some x => some x
        | none => gemini_extract_last_json_object stdout) = some d := by
    intro d h
    rcases h with h | ⟨h1, h2⟩
    · rw [h]
    · rw [h1, h2]
  refine ⟨?_, ?_, ?_, ?_, ?_⟩
  · intro d s kvs h hresp hstats
    have hdict : d.isDict = true := by
      cases d <;> simp [Json.get] at hresp <;> rfl
    have hkey : d.hasKey (pystr "response") = true := by simp [Json.hasKey, hresp]
    unfold GeminiRunner.parse_output
    rw [hsrc d h]
    simp only [hdict, hkey, and_self, not_true_eq_false, if_false, hresp, hstats,
      Option.getD_some]
  · intro d s h hresp hstats
    have hdict : d.isDict = true := by
      cases d <;> simp [Json.get] at hresp <;> rfl
    have hkey : d.hasKey (pystr "response") = true := by simp [Json.hasKey, hresp]
    unfold GeminiRunner.parse_output
    rw [hsrc d h]
    simp only [hdict, hkey, and_self, not_true_eq_false, if_false, hresp, hstats,
      Option.getD_none]
  · intro h1 h2
    unfold GeminiRunner.parse_output
    rw [h1, h2]
  · intro d h hmiss
    have hcond : ¬ (d.isDict = true ∧ d.hasKey (pystr "response") = true) := by
      rcases hmiss with hm | hm
      · simp [hm]
      · simp [Json.hasKey, hm]
    unfold GeminiRunner.parse_output
    rw [hsrc d h]
    simp only [hcond, not_false_eq_true, if_true]
  · intro d v h hresp hns
    have hdict : d.isDict = true := by
      cases d <;> simp [Json.get] at hresp <;> rfl
    have hkey : d.hasKey (pystr "response") = true := by simp [Json.hasKey, hresp]
    unfold GeminiRunner.parse_output
    rw [hsrc d h]
    simp only [hdict, hkey, and_self, not_true_eq_false, if_false, hresp]
    cases v <;> simp [Json.isStr] at hns ⊢

/-- Witness for C8: the spec's end-to-end example — stdout
`{"response": "  hi  ", "stats": {"n": 3}}` parses to output `"hi"` with
metadata `{"n": 3}` (flattened, not nested). -/
theorem claim_C8_witness :
    GeminiRunner.parse_output (pystr "\x7b\"response\": \"  hi  \", \"stats\": \x7b\"n\": 3\x7d\x7d")
        (pystr "") =
      .ok { agent := pystr "gemini", output := pystr "hi",
            raw_output := pystr "\x7b\"response\": \"  hi  \", \"stats\": \x7b\"n\": 3\x7d\x7d",
            metadata := [(pystr "n", .int 3)] } := by
  have h := (claim_C8 (pystr "\x7b\"response\": \"  hi  \", \"stats\": \x7b\"n\": 3\x7d\x7d")
      (pystr "")).1
    (.obj [(pystr "response", .str (pystr "  hi  ")),
           (pystr "stats", .obj [(pystr "n", .int 3)])])
    (pystr "  hi  ") [(pystr "n", .int 3)]
    (Or.inl (by rfl)) (by rfl) (by rfl)
  rw [h]
  rfl

/-! ### C6 — batch aggregation and per-task failure isolation -/

theorem assignLabelsGo_length (ts : List AgentTask) :
    ∀ res, (assignLabelsGo ts res).length = ts.length := by
  induction ts with
  | nil => intro res; rfl
  | cons t rest ih =>
    intro res
    cases h : t.label with
    | some l => simp [assignLabelsGo, h, ih]
    | none =>
      by_cases hb : t.agent ∈ res <;> simp [assignLabelsGo, h, hb, ih]

theorem assign_labels_length (tasks : List AgentTask) :
    (assign_labels tasks).length = tasks.length :=
  assignLabelsGo_length tasks _

/-- **C6.**  `batch_prompt` returns exactly one `AgentTaskResult` per task in
input order; each result depends only on its own task's outcome (a failure in
`PromptRequest` construction or in runner creation / `run()` becomes that
task's `error` string and touches no sibling); counts are derived from the
results list; and the empty batch yields `total = 0` with empty results. -/
theorem claim_C6 (runTask : AgentTask → PromptRequest → Except PyStr PyStr)
    (sve : PyStr) (tasks : List AgentTask) :
    (batch_prompt runTask sve tasks).results.length = tasks.length ∧
    (∀ i, (batch_prompt runTask sve tasks).results.get? i =
      ((assign_labels tasks).get? i).map (run_single runTask sve)) ∧
    (∀ i t, (assign_labels tasks).get? i = some t →
      (∀ req outp,
        mkPromptRequest t.agent t.prompt t.context t.execution_mode t.model = .ok req →
        runTask t req = .ok outp →
        (batch_prompt runTask sve tasks).results.get? i =
          some ⟨t.label.getD [], some outp, none⟩) ∧
      (∀ req msg,
        mkPromptRequest t.agent t.prompt t.context t.execution_mode t.model = .ok req →
        runTask t req = .error msg →
        (batch_prompt runTask sve tasks).results.get? i =
          some ⟨t.label.getD [], none, some msg⟩) ∧
      (∀ e,
        mkPromptRequest t.agent t.prompt t.context t.execution_mode t.model = .error e →
        (batch_prompt runTask sve tasks).results.get? i =
          some ⟨t.label.getD [], none, some sve⟩)) ∧
    (batch_prompt runTask sve tasks).total = (batch_prompt runTask sve tasks).results.length ∧
    (batch_prompt runTask sve tasks).succeeded =
      ((batch_prompt runTask sve tasks).results.filter (fun r => r.success)).length ∧
    (batch_prompt runTask sve tasks).succeeded + (batch_prompt runTask sve tasks).failed =
      (batch_prompt runTask sve tasks).total ∧
    (tasks = [] → batch_prompt runTask sve tasks = ⟨[], 0, 0, 0⟩) := by
  have hres : (batch_prompt runTask sve tasks).results =
      (assign_labels tasks).map (run_single runTask sve) := rfl
  have hget : ∀ i, (batch_prompt runTask sve tasks).results.get? i =
      ((assign_labels tasks).get? i).map (run_single runTask sve) := by
    intro i
    rw [hres, List.get?_map]
  refine ⟨?_, hget, ?_, rfl, rfl, ?_, ?_⟩
  · rw [hres, List.length_map, assign_labels_length]
  · intro i t ht
    have hi : (batch_prompt runTask sve tasks).results.get? i =
        some (run_single runTask sve t) := by
      rw [hget i, ht]
      rfl
    refine ⟨?_, ?_, ?_⟩
    · intro req outp hmk hrun
      rw [hi]
      simp [run_single, hmk, hrun]
    · intro req msg hmk hrun
      rw [hi]
      simp [run_single, hmk, hrun]
    · intro e hmk
      rw [hi]
      simp [run_single, hmk]
  · show (batch_prompt runTask sve tasks).succeeded + (batch_prompt runTask sve tasks).failed =
      (batch_prompt runTask sve tasks).total
    have hle : (((assign_labels tasks).map (run_single runTask sve)).filter
        (fun r => r.success)).length ≤
        ((assign_labels tasks).map (run_single runTask sve)).length :=
      List.length_filter_le _ _
    simp only [batch_prompt, mkMultiPromptResponse]
    omega
  · intro h
    subst h
    rfl

/-- Witness for C6: one succeeding and one failing task produce isolated
results in input order with derived counts. -/
theorem claim_C6_witness :
    (batch_prompt
        (fun t _ => if t.agent = pystr "gemini" then .ok (pystr "fine")
          else .error (pystr "CLI not found in PATH: codex"))
        (pystr "validation error")
        [{ agent := pystr "gemini", prompt := pystr "p1" },
         { agent := pystr "codex", prompt := pystr "p2" }]).results =
      [⟨pystr "gemini", some (pystr "fine"), none⟩,
       ⟨pystr "codex", none, some (pystr "CLI not found in PATH: codex")⟩] ∧
    (batch_prompt (fun _ _ => .ok (pystr "fine")) (pystr "ve") []).total = 0 := by
  have h1 := (claim_C6
    (fun t _ => if t.agent = pystr "gemini" then .ok (pystr "fine")
      else .error (pystr "CLI not found in PATH: codex"))
    (pystr "validation error")
    [{ agent := pystr "gemini", prompt := pystr "p1" },
     { agent := pystr "codex", prompt := pystr "p2" }]).1
  have h2 := (claim_C6 (fun _ _ => .ok (pystr "fine")) (pystr "ve") []).2.2.2.2.2.2 rfl
  refine ⟨?_, by rw [h2]⟩
  rfl

/-! ### C5 — label assignment -/

theorem probeLabel_spec (res : List PyStr) (base : PyStr) :
    ∀ (fuel start : Nat), (∃ k, k < fuel ∧ labelName base (start + k) ∉ res) →
    ∃ n, start ≤ n ∧ probeLabel res base fuel start = labelName base n ∧
      labelName base n ∉ res ∧ ∀ m, start ≤ m → m < n → labelName base m ∈ res := by
  intro fuel
  induction fuel with
  | zero => intro start ⟨k, hk, _⟩; omega
  | succ fuel ih =>
    intro start ⟨k, hk, hfree⟩
    by_cases hs : labelName base start ∈ res
    · have hk0 : k ≠ 0 := by
        intro h
        rw [h] at hfree
        simp at hfree
        exact hfree hs
      obtain ⟨n, hn1, hn2, hn3, hn4⟩ := ih (start + 1)
        ⟨k - 1, by omega, by have : start + 1 + (k - 1) = start + k := by omega
                             rw [this]; exact hfree⟩
      refine ⟨n, by omega, ?_, hn3, ?_⟩
      · unfold probeLabel
        rw [if_pos hs]
        exact hn2
      · intro m hm1 hm2
        rcases Nat.eq_or_lt_of_le hm1 with h | h
        · rw [← h]; exact hs
        · exact hn4 m (by omega) hm2
    · refine ⟨start, le_refl _, ?_, hs, by omega⟩
      unfold probeLabel
      rw [if_neg hs]

theorem labelName_free_exists (res : List PyStr) (base : PyStr) (start : Nat) :
    ∃ k, k < res.length + 1 ∧ labelName base (start + k) ∉ res := by
  by_contra h
  push_neg at h
  have hinj : Function.Injective (fun k : Nat => labelName base (start + k)) := by
    intro a b hab
    have := labelName_inj base hab
    omega
  have hcard : ((Finset.range (res.length + 1)).image
      (fun k => labelName base (start + k))).card = res.length + 1 := by
    rw [Finset.card_image_of_injective _ hinj, Finset.card_range]
  have hsub : ((Finset.range (res.length + 1)).image
      (fun k => labelName base (start + k))) ⊆ res.toFinset := by
    intro x hx
    simp only [Finset.mem_image, Finset.mem_range] at hx
    obtain ⟨k, hk, rfl⟩ := hx
    rw [List.mem_toFinset]
    exact h k hk
  have := Finset.card_le_card hsub
  have := List.toFinset_card_le res
  omega

theorem chooseLabel_spec (res : List PyStr) (base : PyStr) :
    chooseLabel res base ∉ res ∧
    (base ∉ res → chooseLabel res base = base) ∧
    (base ∈ res → ∃ n, 2 ≤ n ∧ chooseLabel res base = labelName base n ∧
      labelName base n ∉ res ∧ ∀ m, 2 ≤ m → m < n → labelName base m ∈ res) := by
  by_cases hb : base ∈ res
  · obtain ⟨n, hn1, hn2, hn3, hn4⟩ :=
      probeLabel_spec res base (res.length + 1) 2 (labelName_free_exists res base 2)
    have hc : chooseLabel res base = probeLabel res base (res.length + 1) 2 := by
      unfold chooseLabel
      rw [if_neg (by simpa using hb)]
    constructor
    · rw [hc, hn2]; exact hn3
    · exact ⟨fun h => absurd hb h, fun _ => ⟨n, hn1, by rw [hc]; exact hn2, hn3, hn4⟩⟩
  · constructor
    · unfold chooseLabel
      rw [if_pos hb]
      exact hb
    · exact ⟨fun _ => by unfold chooseLabel; rw [if_pos hb], fun h => absurd h hb⟩

theorem assignLabelsGo_get (ts : List AgentTask) :
    ∀ (res : List PyStr) (i : Nat),
    (assignLabelsGo ts res).get? i = (ts.get? i).map (fun t =>
      match t.label with
      | some _ => t
      | none => { t with label := some (chooseLabel (assignLabelsGoRes ts res i) t.agent) }) := by
  induction ts with
  | nil => intro res i; simp [assignLabelsGo]
  | cons t rest ih =>
    intro res i
    cases hl : t.label with
    | some l =>
      cases i with
      | zero => simp [assignLabelsGo, hl]
      | succ i =>
        have hgo : assignLabelsGo (t :: rest) res = t :: assignLabelsGo rest res := by
          simp [assignLabelsGo, hl]
        rw [hgo]
        have hres : assignLabelsGoRes (t :: rest) res (i + 1) =
            assignLabelsGoRes rest res i := by
          simp [assignLabelsGoRes, hl]
        simp only [List.get?_cons_succ, hres]
        exact ih res i
    | none =>
      by_cases hb : t.agent ∈ res
      · have hgo : assignLabelsGo (t :: rest) res =
            { t with label := some (probeLabel res t.agent (res.length + 1) 2) } ::
              assignLabelsGo rest ((probeLabel res t.agent (res.length + 1) 2) :: res) := by
          simp [assignLabelsGo, hl, hb]
        cases i with
        | zero =>
          rw [hgo]
          have hres0 : assignLabelsGoRes (t :: rest) res 0 = res := rfl
          simp [hl, hres0, chooseLabel, hb]
        | succ i =>
          rw [hgo]
          have hres : assignLabelsGoRes (t :: rest) res (i + 1) =
              assignLabelsGoRes rest ((probeLabel res t.agent (res.length + 1) 2) :: res) i := by
            simp [assignLabelsGoRes, hl, hb]
          simp only [List.get?_cons_succ, hres]
          exact ih _ i
      · have hgo : assignLabelsGo (t :: rest) res =
            { t with label := some t.agent } :: assignLabelsGo rest (t.agent :: res) := by
          simp [assignLabelsGo, hl, hb]
        cases i with
        | zero =>
          rw [hgo]
          have hres0 : assignLabelsGoRes (t :: rest) res 0 = res := rfl
          simp [hl, hres0, chooseLabel, hb]
        | succ i =>
          rw [hgo]
          have hres : assignLabelsGoRes (t :: rest) res (i + 1) =
              assignLabelsGoRes rest (t.agent :: res) i := by
            simp [assignLabelsGoRes, hl, hb]
          simp only [List.get?_cons_succ, hres]
          exact ih _ i

theorem assignLabelsGoRes_mem (ts : List AgentTask) :
    ∀ (res : List PyStr) (i : Nat) (s : PyStr),
    s ∈ assignLabelsGoRes ts res i ↔
      s ∈ res ∨ ∃ j, j < i ∧ ∃ t t', ts.get? j = some t ∧ t.label = none ∧
        (assignLabelsGo ts res).get? j = some t' ∧ t'.label = some s := by
  induction ts with
  | nil =>
    intro res i s
    cases i <;> simp [assignLabelsGoRes]
  | cons t rest ih =>
    intro res i s
    cases i with
    | zero => simp [assignLabelsGoRes]
    | succ i =>
      cases hl : t.label with
      | some l =>
        have hgo : assignLabelsGo (t :: rest) res = t :: assignLabelsGo rest res := by
          simp [assignLabelsGo, hl]
        have hres : assignLabelsGoRes (t :: rest) res (i + 1) =
            assignLabelsGoRes rest res i := by
          simp [assignLabelsGoRes, hl]
        rw [hres, ih res i s, hgo]
        constructor
        · rintro (h | ⟨j, hj, t₀, t', h1, h2, h3, h4⟩)
          · exact Or.inl h
          · exact Or.inr ⟨j + 1, by omega, t₀, t', by simpa using h1, h2, by simpa using h3, h4⟩
        · rintro (h | ⟨j, hj, t₀, t', h1, h2, h3, h4⟩)
          · exact Or.inl h
          · cases j with
            | zero =>
              simp only [List.get?_cons_zero, Option.some.injEq] at h1
              rw [← h1] at h2
              rw [hl] at h2
              exact absurd h2 (by simp)
            | succ j =>
              exact Or.inr ⟨j, by omega, t₀, t', by simpa using h1, h2, by simpa using h3, h4⟩
      | none =>
        -- both branches of the reservation step share the same shape
        have key : ∀ L : PyStr,
            assignLabelsGo (t :: rest) res =
              { t with label := some L } :: assignLabelsGo rest (L :: res) →
            assignLabelsGoRes (t :: rest) res (i + 1) =
              assignLabelsGoRes rest (L :: res) i →
            (s ∈ assignLabelsGoRes (t :: rest) res (i + 1) ↔
              s ∈ res ∨ ∃ j, j < i + 1 ∧ ∃ t₀ t',
                (t :: rest).get? j = some t₀ ∧ t₀.label = none ∧
                (assignLabelsGo (t :: rest) res).get? j = some t' ∧ t'.label = some s) := by
          intro L hgo hres
          rw [hres, ih (L :: res) i s, hgo]
          constructor
          · rintro (h | ⟨j, hj, t₀, t', h1, h2, h3, h4⟩)
            · rcases List.mem_cons.mp h with h | h
              · exact Or.inr ⟨0, by omega, t, { t with label := some L }, rfl, hl, rfl,
                  by simp [h]⟩
              · exact Or.inl h
            · exact Or.inr ⟨j + 1, by omega, t₀, t', by simpa using h1, h2,
                by simpa using h3, h4⟩
          · rintro (h | ⟨j, hj, t₀, t', h1, h2, h3, h4⟩)
            · exact Or.inl (List.mem_cons_of_mem _ h)
            · cases j with
              | zero =>
                simp only [List.get?_cons_zero, Option.some.injEq] at h1 h3
                rw [← h3] at h4
                simp only at h4
                have : L = s := by simpa using h4
                exact Or.inl (this ▸ List.mem_cons_self _ _)
              | succ j =>
                exact Or.inr ⟨j, by omega, t₀, t', by simpa using h1, h2,
                  by simpa using h3, h4⟩
        by_cases hb : t.agent ∈ res
        · exact key (probeLabel res t.agent (res.length + 1) 2)
            (by simp [assignLabelsGo, hl, hb]) (by simp [assignLabelsGoRes, hl, hb])
        · exact key t.agent
            (by simp [assignLabelsGo, hl, hb]) (by simp [assignLabelsGoRes, hl, hb])

theorem mem_take_iff_get? {α : Type} (l : List α) (i : Nat) (a : α) :
    a ∈ l.take i ↔ ∃ j, j < i ∧ l.get? j = some a := by
  constructor
  · intro h
    obtain ⟨⟨j, hj⟩, hja⟩ := List.mem_iff_get.mp h
    have hji : j < i := by
      have := l.length_take i
      omega
    refine ⟨j, hji, ?_⟩
    have h1 : (l.take i).get? j = some a := by
      rw [List.get?_eq_get hj, hja]
    rwa [List.get?_take hji] at h1
  · rintro ⟨j, hj, hja⟩
    have h1 : (l.take i).get? j = some a := by rwa [List.get?_take hj]
    exact List.get?_mem h1

theorem mem_reservedAt (tasks : List AgentTask) (i : Nat) (s : PyStr) :
    s ∈ reservedAt tasks i ↔
      s ∈ assignLabelsGoRes tasks (tasks.filterMap (fun t => t.label)) i := by
  rw [assignLabelsGoRes_mem]
  unfold reservedAt assign_labels
  rw [List.mem_append]
  constructor
  · rintro (h | h)
    · exact Or.inl h
    · obtain ⟨t', ht', hlab⟩ := List.mem_filterMap.mp h
      obtain ⟨j, hj, hget⟩ := (mem_take_iff_get? _ i t').mp ht'
      have hts : ∃ t, tasks.get? j = some t := by
        have hmap := assignLabelsGo_get tasks (tasks.filterMap (fun t => t.label)) j
        rw [hmap] at hget
        cases hx : tasks.get? j with
        | none => rw [hx] at hget; simp at hget
        | some t => exact ⟨t, rfl⟩
      obtain ⟨t, ht⟩ := hts
      cases hlt : t.label with
      | none => exact Or.inr ⟨j, hj, t, t', ht, hlt, hget, hlab⟩
      | some l =>
        left
        have hmapj := assignLabelsGo_get tasks (tasks.filterMap (fun t => t.label)) j
        rw [hmapj, ht] at hget
        simp only [Option.map_some', hlt, Option.some.injEq] at hget
        refine List.mem_filterMap.mpr ⟨t, List.get?_mem ht, ?_⟩
        rw [hget]
        exact hlab
  · rintro (h | ⟨j, hj, t, t', h1, h2, h3, h4⟩)
    · exact Or.inl h
    · right
      refine List.mem_filterMap.mpr ⟨t', ?_, h4⟩
      exact (mem_take_iff_get? _ i t').mpr ⟨j, hj, h3⟩

/-- **C5.**  Label assignment preserves input order and every non-label
field, keeps explicitly supplied labels unchanged, gives every output task a
label, and gives each unlabeled task its agent name when that name is not
reserved at that point — otherwise the first free `agent-n` (n = 2, 3, …),
every smaller probe being reserved — where "reserved" is the set of all
explicit labels plus the labels claimed by earlier output tasks.  On a task
list whose members all carry labels, nothing changes (idempotence); being a
pure function of the task list, the assignment is deterministic. -/
theorem claim_C5 (tasks : List AgentTask) :
    ((assign_labels tasks).length = tasks.length) ∧
    (∀ i t, tasks.get? i = some t → t.label.isSome →
      (assign_labels tasks).get? i = some t) ∧
    (∀ i t', (assign_labels tasks).get? i = some t' → t'.label.isSome) ∧
    (∀ i t, tasks.get? i = some t →
      ∃ t', (assign_labels tasks).get? i = some t' ∧
        t'.agent = t.agent ∧ t'.prompt = t.prompt ∧ t'.context = t.context ∧
        t'.execution_mode = t.execution_mode ∧ t'.model = t.model) ∧
    (∀ i t, tasks.get? i = some t → t.label = none →
      ∃ L, (assign_labels tasks).get? i = some { t with label := some L } ∧
        L ∉ reservedAt tasks i ∧
        (t.agent ∉ reservedAt tasks i → L = t.agent) ∧
        (t.agent ∈ reservedAt tasks i →
          ∃ n, 2 ≤ n ∧ L = labelName t.agent n ∧
            (∀ m, 2 ≤ m → m < n → labelName t.agent m ∈ reservedAt tasks i))) ∧
    ((∀ t ∈ tasks, t.label.isSome) → assign_labels tasks = tasks) := by
  have hmap := assignLabelsGo_get tasks (tasks.filterMap (fun t => t.label))
  refine ⟨assign_labels_length tasks, ?_, ?_, ?_, ?_, ?_⟩
  · intro i t ht hsome
    show (assignLabelsGo tasks _).get? i = some t
    rw [hmap i, ht]
    cases hl : t.label with
    | none => rw [hl] at hsome; cases hsome
    | some l => simp [hl]
  · intro i t' ht'
    have ht'' : (assignLabelsGo tasks (tasks.filterMap (fun t => t.label))).get? i =
        some t' := ht'
    have hmapi := hmap i
    rw [ht''] at hmapi
    cases hx : tasks.get? i with
    | none => rw [hx] at hmapi; cases hmapi
    | some t =>
      rw [hx] at hmapi
      simp only [Option.map_some', Option.some.injEq] at hmapi
      cases hl : t.label with
      | some l => rw [hmapi]; simp [hl]
      | none => rw [hmapi]; simp [hl]
  · intro i t ht
    cases hl : t.label with
    | some l =>
      refine ⟨t, ?_, rfl, rfl, rfl, rfl, rfl⟩
      show (assignLabelsGo tasks _).get? i = some t
      rw [hmap i, ht]
      simp [hl]
    | none =>
      refine ⟨{ t with label := some (chooseLabel
        (assignLabelsGoRes tasks (tasks.filterMap (fun t => t.label)) i) t.agent) },
        ?_, rfl, rfl, rfl, rfl, rfl⟩
      show (assignLabelsGo tasks _).get? i = some _
      rw [hmap i, ht]
      simp [hl]
  · intro i t ht hnone
    set res := assignLabelsGoRes tasks (tasks.filterMap (fun t => t.label)) i with hres
    refine ⟨chooseLabel res t.agent, ?_, ?_, ?_, ?_⟩
    · show (assignLabelsGo tasks _).get? i = _
      rw [hmap i, ht]
      simp [hnone]
    · rw [mem_reservedAt]
      exact (chooseLabel_spec res t.agent).1
    · intro hfree
      rw [mem_reservedAt] at hfree
      exact (chooseLabel_spec res t.agent).2.1 hfree
    · intro hmem
      rw [mem_reservedAt] at hmem
      obtain ⟨n, hn1, hn2, _, hn4⟩ := (chooseLabel_spec res t.agent).2.2 hmem
      exact ⟨n, hn1, hn2, fun m hm1 hm2 => (mem_reservedAt tasks i _).mpr (hn4 m hm1 hm2)⟩
  · intro hall
    apply List.ext_get?
    intro i
    show (assignLabelsGo tasks _).get? i = tasks.get? i
    rw [hmap i]
    cases hx : tasks.get? i with
    | none => simp
    | some t =>
      have := hall t (List.get?_mem hx)
      cases hl : t.label with
      | none => rw [hl] at this; cases this
      | some l => simp [hl]

/-- Witness for C5: two unlabeled `gemini` tasks and an explicit
`gemini-2` — the first claims `gemini`, the second probes past the reserved
`gemini-2` to `gemini-3`, the explicit label is untouched. -/
theorem claim_C5_witness :
    (assign_labels
        [{ agent := pystr "gemini", prompt := pystr "p1" },
         { agent := pystr "gemini", prompt := pystr "p2" },
         { agent := pystr "gemini", prompt := pystr "p3",
           label := some (pystr "gemini-2") }]).get? 0 =
      some { agent := pystr "gemini", prompt := pystr "p1",
             label := some (pystr "gemini") } ∧
    (assign_labels
        [{ agent := pystr "gemini", prompt := pystr "p1" },
         { agent := pystr "gemini", prompt := pystr "p2" },
         { agent := pystr "gemini", prompt := pystr "p3",
           label := some (pystr "gemini-2") }]).get? 1 =
      some { agent := pystr "gemini", prompt := pystr "p2",
             label := some (pystr "gemini-3") } ∧
    (assign_labels
        [{ agent := pystr "gemini", prompt := pystr "p1" },
         { agent := pystr "gemini", prompt := pystr "p2" },
         { agent := pystr "gemini", prompt := pystr "p3",
           label := some (pystr "gemini-2") }]).get? 2 =
      some { agent := pystr "gemini", prompt := pystr "p3",
             label := some (pystr "gemini-2") } := by
  have h := (claim_C5
    [{ agent := pystr "gemini", prompt := pystr "p1" },
     { agent := pystr "gemini", prompt := pystr "p2" },
     { agent := pystr "gemini", prompt := pystr "p3",
       label := some (pystr "gemini-2") }]).2.1 2
    { agent := pystr "gemini", prompt := pystr "p3", label := some (pystr "gemini-2") }
    (by rfl) (by rfl)
  exact ⟨rfl, rfl, h⟩

/-! ### C2 — output-size limiting

The UTF-8 facts: a decoded-with-ignore byte list re-encodes to at most as
many bytes (each decoded scalar re-encodes to exactly the bytes consumed,
dropped bytes contribute nothing), and decoding a prefix of a valid
encoding yields a prefix of the original characters (the partial trailing
character is dropped). -/

theorem utf8CharLen_ofNat (v : Nat) (hv : v.isValidChar) :
    utf8CharLen (Char.ofNat v) =
      if v < 0x80 then 1 else if v < 0x800 then 2 else if v < 0x10000 then 3 else 4 := by
  unfold utf8CharLen
  rw [toNat_ofNat_valid v hv]

theorem utf8EncodeChar_length (c : Char) :
    (utf8EncodeChar c).length = utf8CharLen c := by
  unfold utf8EncodeChar utf8CharLen
  by_cases h1 : c.toNat < 0x80
  · simp [h1]
  · by_cases h2 : c.toNat < 0x800
    · simp [h1, h2]
    · by_cases h3 : c.toNat < 0x10000
      · simp [h1, h2, h3]
      · simp [h1, h2, h3]

theorem utf8Len_cons (c : Char) (s : PyStr) :
    utf8Len (c :: s) = utf8CharLen c + utf8Len s := by
  simp [utf8Len, utf8Encode, utf8EncodeChar_length]

theorem utf8Len_append (a b : PyStr) :
    utf8Len (a ++ b) = utf8Len a + utf8Len b := by
  simp [utf8Len, utf8Encode]

theorem utf8DecodeOne_spec (bs : List Nat) (v : Nat) (rest : List Nat)
    (h : utf8DecodeOne bs = some (v, rest)) :
    v.isValidChar ∧ utf8CharLen (Char.ofNat v) + rest.length = bs.length ∧
      rest.length < bs.length := by
  have hvalid : ∀ w : Nat, w < 0xD800 ∨ (0xDFFF < w ∧ w < 0x110000) → w.isValidChar := by
    intro w hw
    unfold Nat.isValidChar
    omega
  cases bs with
  | nil => cases h
  | cons b bs' =>
    simp only [utf8DecodeOne] at h
    by_cases h1 : b < 0x80
    · rw [if_pos h1, Option.some_inj, Prod.mk.injEq] at h
      obtain ⟨rfl, rfl⟩ := h
      have hv := hvalid b (by omega)
      rw [utf8CharLen_ofNat b hv, if_pos h1]
      exact ⟨hv, by simp only [List.length_cons]; omega,
        by simp only [List.length_cons]; omega⟩
    · rw [if_neg h1] at h
      by_cases h2 : b < 0xC2
      · rw [if_pos h2] at h; cases h
      · rw [if_neg h2] at h
        by_cases h3 : b < 0xE0
        · rw [if_pos h3] at h
          cases bs' with
          | nil => cases h
          | cons b1 bs1 =>
            simp only [utf8Decode2] at h
            by_cases hc : 0x80 ≤ b1 ∧ b1 < 0xC0
            · rw [if_pos hc, Option.some_inj, Prod.mk.injEq] at h
              obtain ⟨rfl, rfl⟩ := h
              have hv := hvalid ((b - 0xC0) * 64 + (b1 - 0x80)) (by omega)
              rw [utf8CharLen_ofNat _ hv, if_neg (by omega), if_pos (by omega)]
              exact ⟨hv, by simp only [List.length_cons]; omega,
                by simp only [List.length_cons]; omega⟩
            · rw [if_neg hc] at h; cases h
        · rw [if_neg h3] at h
          by_cases h4 : b < 0xF0
          · rw [if_pos h4] at h
            match bs' with
            | [] => cases h
            | [b1] => cases h
            | b1 :: b2 :: bs2 =>
              simp only [utf8Decode3] at h
              by_cases hc : (0x80 ≤ b1 ∧ b1 < 0xC0) ∧ (0x80 ≤ b2 ∧ b2 < 0xC0)
                  ∧ (b = 0xE0 → 0xA0 ≤ b1) ∧ (b = 0xED → b1 < 0xA0)
              · rw [if_pos hc, Option.some_inj, Prod.mk.injEq] at h
                obtain ⟨rfl, rfl⟩ := h
                obtain ⟨hc1, hc2, hcE0, hcED⟩ := hc
                have hrange : ((b - 0xE0) * 64 + (b1 - 0x80)) * 64 + (b2 - 0x80) < 0xD800 ∨
                    (0xDFFF < ((b - 0xE0) * 64 + (b1 - 0x80)) * 64 + (b2 - 0x80) ∧
                      ((b - 0xE0) * 64 + (b1 - 0x80)) * 64 + (b2 - 0x80) < 0x110000) := by
                  by_cases hE0 : b = 0xE0
                  · have := hcE0 hE0; omega
                  · by_cases hED : b = 0xED
                    · have := hcED hED; omega
                    · by_cases hhi : b ≤ 0xEC
                      · left; omega
                      · right; omega
                have hv := hvalid _ hrange
                have hlo : 0x800 ≤ ((b - 0xE0) * 64 + (b1 - 0x80)) * 64 + (b2 - 0x80) := by
                  by_cases hE0 : b = 0xE0
                  · have := hcE0 hE0; omega
                  · omega
                rw [utf8CharLen_ofNat _ hv, if_neg (by omega), if_neg (by omega),
                  if_pos (by omega)]
                exact ⟨hv, by simp only [List.length_cons]; omega,
                  by simp only [List.length_cons]; omega⟩
              · rw [if_neg hc] at h; cases h
          · rw [if_neg h4] at h
            by_cases h5 : b < 0xF5
            · rw [if_pos h5] at h
              match bs' with
              | [] => cases h
              | [b1] => cases h
              | [b1, b2] => cases h
              | b1 :: b2 :: b3 :: bs3 =>
                simp only [utf8Decode4] at h
                by_cases hc : (0x80 ≤ b1 ∧ b1 < 0xC0) ∧ (0x80 ≤ b2 ∧ b2 < 0xC0)
                    ∧ (0x80 ≤ b3 ∧ b3 < 0xC0)
                    ∧ (b = 0xF0 → 0x90 ≤ b1) ∧ (b = 0xF4 → b1 < 0x90)
                · rw [if_pos hc, Option.some_inj, Prod.mk.injEq] at h
                  obtain ⟨rfl, rfl⟩ := h
                  obtain ⟨hc1, hc2, hc3, hcF0, hcF4⟩ := hc
                  have hbounds : 0x10000 ≤
                      (((b - 0xF0) * 64 + (b1 - 0x80)) * 64 + (b2 - 0x80)) * 64 + (b3 - 0x80) ∧
                      (((b - 0xF0) * 64 + (b1 - 0x80)) * 64 + (b2 - 0x80)) * 64 + (b3 - 0x80)
                        < 0x110000 := by
                    by_cases hF0 : b = 0xF0
                    · have := hcF0 hF0; omega
                    · by_cases hF4 : b = 0xF4
                      · have := hcF4 hF4; omega
                      · omega
                  have hv := hvalid
                    ((((b - 0xF0) * 64 + (b1 - 0x80)) * 64 + (b2 - 0x80)) * 64 + (b3 - 0x80))
                    (by omega)
                  rw [utf8CharLen_ofNat _ hv, if_neg (by omega), if_neg (by omega),
                    if_neg (by omega)]
                  exact ⟨hv, by simp only [List.length_cons]; omega,
                    by simp only [List.length_cons]; omega⟩
                · rw [if_neg hc] at h; cases h
            · rw [if_neg h5] at h; cases h

theorem utf8DecodeIgnoreAux_fuel (f₁ : Nat) :
    ∀ (f₂ : Nat) (bs : List Nat), bs.length ≤ f₁ → bs.length ≤ f₂ →
    utf8DecodeIgnoreAux f₁ bs = utf8DecodeIgnoreAux f₂ bs := by
  induction f₁ with
  | zero =>
    intro f₂ bs h1 h2
    have : bs = [] := List.length_eq_zero.mp (by omega)
    subst this
    cases f₂ <;> rfl
  | succ f₁ ih =>
    intro f₂ bs h1 h2
    cases bs with
    | nil => cases f₂ <;> rfl
    | cons b bs' =>
      cases f₂ with
      | zero => simp at h2
      | succ f₂ =>
        simp only [utf8DecodeIgnoreAux]
        cases hd : utf8DecodeOne (b :: bs') with
        | none =>
          simp only [List.length_cons] at h1 h2
          exact ih f₂ bs' (by omega) (by omega)
        | some p =>
          obtain ⟨v, rest⟩ := p
          obtain ⟨_, _, hlt⟩ := utf8DecodeOne_spec _ _ _ hd
          simp only [List.length_cons] at h1 h2 hlt
          show Char.ofNat v :: utf8DecodeIgnoreAux f₁ rest =
            Char.ofNat v :: utf8DecodeIgnoreAux f₂ rest
          rw [ih f₂ rest (by omega) (by omega)]

theorem utf8Len_decodeAux_le (fuel : Nat) :
    ∀ bs : List Nat, bs.length ≤ fuel →
    utf8Len (utf8DecodeIgnoreAux fuel bs) ≤ bs.length := by
  induction fuel with
  | zero =>
    intro bs h
    have : bs = [] := List.length_eq_zero.mp (by omega)
    subst this
    simp [utf8DecodeIgnoreAux, utf8Len, utf8Encode]
  | succ fuel ih =>
    intro bs h
    cases bs with
    | nil => simp [utf8DecodeIgnoreAux, utf8Len, utf8Encode]
    | cons b bs' =>
      simp only [utf8DecodeIgnoreAux]
      cases hd : utf8DecodeOne (b :: bs') with
      | none =>
        simp only [List.length_cons] at h ⊢
        have := ih bs' (by omega)
        omega
      | some p =>
        obtain ⟨v, rest⟩ := p
        obtain ⟨_, hlen, hlt⟩ := utf8DecodeOne_spec _ _ _ hd
        show utf8Len (Char.ofNat v :: utf8DecodeIgnoreAux fuel rest) ≤ _
        rw [utf8Len_cons]
        simp only [List.length_cons] at h hlen hlt ⊢
        have := ih rest (by omega)
        omega

theorem utf8Len_decodeIgnore_le (bs : List Nat) :
    utf8Len (utf8DecodeIgnore bs) ≤ bs.length :=
  utf8Len_decodeAux_le bs.length bs (le_refl _)

theorem utf8DecodeOne_encodeChar (c : Char) (bs : List Nat) :
    utf8DecodeOne (utf8EncodeChar c ++ bs) = some (c.toNat, bs) := by
  have hv : Nat.isValidChar c.toNat := c.valid
  unfold Nat.isValidChar at hv
  by_cases hn1 : c.toNat < 0x80
  · have henc : utf8EncodeChar c = [c.toNat] := by
      unfold utf8EncodeChar
      rw [if_pos hn1]
    rw [henc]
    show utf8DecodeOne (c.toNat :: bs) = some (c.toNat, bs)
    simp only [utf8DecodeOne]
    rw [if_pos hn1]
  · by_cases hn2 : c.toNat < 0x800
    · have henc : utf8EncodeChar c = [0xC0 + c.toNat / 64, 0x80 + c.toNat % 64] := by
        unfold utf8EncodeChar
        rw [if_neg hn1, if_pos hn2]
      rw [henc]
      show utf8DecodeOne ((0xC0 + c.toNat / 64) :: (0x80 + c.toNat % 64) :: bs) = _
      simp only [utf8DecodeOne]
      rw [if_neg (by omega), if_neg (by omega), if_pos (by omega)]
      simp only [utf8Decode2]
      rw [if_pos ⟨by omega, by omega⟩]
      have hval : (0xC0 + c.toNat / 64 - 0xC0) * 64 + (0x80 + c.toNat % 64 - 0x80)
          = c.toNat := by omega
      rw [hval]
    · by_cases hn3 : c.toNat < 0x10000
      · have henc : utf8EncodeChar c =
            [0xE0 + c.toNat / 4096, 0x80 + c.toNat / 64 % 64, 0x80 + c.toNat % 64] := by
          unfold utf8EncodeChar
          rw [if_neg hn1, if_neg hn2, if_pos hn3]
        rw [henc]
        show utf8DecodeOne ((0xE0 + c.toNat / 4096) :: (0x80 + c.toNat / 64 % 64) ::
          (0x80 + c.toNat % 64) :: bs) = _
        simp only [utf8DecodeOne]
        rw [if_neg (by omega), if_neg (by omega), if_neg (by omega), if_pos (by omega)]
        simp only [utf8Decode3]
        rw [if_pos ⟨⟨by omega, by omega⟩, ⟨by omega, by omega⟩,
          fun h => by omega, fun h => by omega⟩]
        have hval : ((0xE0 + c.toNat / 4096 - 0xE0) * 64 + (0x80 + c.toNat / 64 % 64 - 0x80))
            * 64 + (0x80 + c.toNat % 64 - 0x80) = c.toNat := by omega
        rw [hval]
      · have henc : utf8EncodeChar c =
            [0xF0 + c.toNat / 262144, 0x80 + c.toNat / 4096 % 64,
             0x80 + c.toNat / 64 % 64, 0x80 + c.toNat % 64] := by
          unfold utf8EncodeChar
          rw [if_neg hn1, if_neg hn2, if_neg hn3]
        rw [henc]
        show utf8DecodeOne ((0xF0 + c.toNat / 262144) :: (0x80 + c.toNat / 4096 % 64) ::
          (0x80 + c.toNat / 64 % 64) :: (0x80 + c.toNat % 64) :: bs) = _
        simp only [utf8DecodeOne]
        rw [if_neg (by omega), if_neg (by omega), if_neg (by omega), if_neg (by omega),
          if_pos (by omega)]
        simp only [utf8Decode4]
        rw [if_pos ⟨⟨by omega, by omega⟩, ⟨by omega, by omega⟩, ⟨by omega, by omega⟩,
          fun h => by omega, fun h => by omega⟩]
        have hval : (((0xF0 + c.toNat / 262144 - 0xF0) * 64 + (0x80 + c.toNat / 4096 % 64 - 0x80))
            * 64 + (0x80 + c.toNat / 64 % 64 - 0x80)) * 64 + (0x80 + c.toNat % 64 - 0x80)
            = c.toNat := by omega
        rw [hval]

theorem utf8DecodeIgnore_cons (c : Char) (bs : List Nat) :
    utf8DecodeIgnore (utf8EncodeChar c ++ bs) = c :: utf8DecodeIgnore bs := by
  unfold utf8DecodeIgnore
  have hL : 1 ≤ (utf8EncodeChar c).length := by
    rw [utf8EncodeChar_length]
    unfold utf8CharLen
    split_ifs <;> omega
  obtain ⟨e0, etail, henc⟩ : ∃ e0 etail, utf8EncodeChar c = e0 :: etail := by
    cases h : utf8EncodeChar c with
    | nil => rw [h] at hL; simp at hL
    | cons e0 etail => exact ⟨e0, etail, rfl⟩
  rw [henc]
  simp only [List.cons_append, List.length_cons, utf8DecodeIgnoreAux, List.append_eq]
  have hdec : utf8DecodeOne (e0 :: (etail ++ bs)) = some (c.toNat, bs) := by
    rw [← List.cons_append, ← henc]
    exact utf8DecodeOne_encodeChar c bs
  rw [hdec]
  show Char.ofNat c.toNat :: utf8DecodeIgnoreAux (etail ++ bs).length bs = _
  rw [Char.ofNat_toNat]
  congr 1
  exact utf8DecodeIgnoreAux_fuel _ _ bs (by simp) (le_refl _)

theorem utf8DecodeOne_cont (b : Nat) (bs : List Nat) (h1 : 0x80 ≤ b) (h2 : b < 0xC2) :
    utf8DecodeOne (b :: bs) = none := by
  simp only [utf8DecodeOne]
  rw [if_neg (by omega), if_pos (by omega)]

theorem utf8DecodeAux_drop_none (fuel : Nat) :
    ∀ bs : List Nat, (∀ k, utf8DecodeOne (bs.drop k) = none) →
    utf8DecodeIgnoreAux fuel bs = [] := by
  induction fuel with
  | zero => intro bs _; rfl
  | succ fuel ih =>
    intro bs h
    cases bs with
    | nil => rfl
    | cons b bs' =>
      simp only [utf8DecodeIgnoreAux]
      have h0 := h 0
      simp only [List.drop_zero] at h0
      rw [h0]
      show utf8DecodeIgnoreAux fuel bs' = []
      exact ih bs' (fun k => by simpa using h (k + 1))

theorem decode_take_encodeChar_cut (c : Char) (n : Nat) (hn : n < utf8CharLen c)
    (fuel : Nat) :
    utf8DecodeIgnoreAux fuel ((utf8EncodeChar c).take n) = [] := by
  have hv : Nat.isValidChar c.toNat := c.valid
  unfold Nat.isValidChar at hv
  apply utf8DecodeAux_drop_none
  intro k
  by_cases hn1 : c.toNat < 0x80
  · have hL : utf8CharLen c = 1 := by unfold utf8CharLen; rw [if_pos hn1]
    have hn0 : n = 0 := by omega
    subst hn0
    simp [utf8DecodeOne]
  · by_cases hn2 : c.toNat < 0x800
    · have hL : utf8CharLen c = 2 := by
        unfold utf8CharLen
        rw [if_neg hn1, if_pos hn2]
      have henc : utf8EncodeChar c = [0xC0 + c.toNat / 64, 0x80 + c.toNat % 64] := by
        unfold utf8EncodeChar
        rw [if_neg hn1, if_pos hn2]
      rw [henc]
      rw [hL] at hn
      interval_cases n
      · simp [utf8DecodeOne]
      · match k with
        | 0 =>
          simp only [List.take_succ_cons, List.take_zero, List.drop_zero]
          simp only [utf8DecodeOne]
          rw [if_neg (by omega), if_neg (by omega), if_pos (by omega)]
          rfl
        | k + 1 => simp [utf8DecodeOne]
    · by_cases hn3 : c.toNat < 0x10000
      · have hL : utf8CharLen c = 3 := by
          unfold utf8CharLen
          rw [if_neg hn1, if_neg hn2, if_pos hn3]
        have henc : utf8EncodeChar c =
            [0xE0 + c.toNat / 4096, 0x80 + c.toNat / 64 % 64, 0x80 + c.toNat % 64] := by
          unfold utf8EncodeChar
          rw [if_neg hn1, if_neg hn2, if_pos hn3]
        rw [henc]
        rw [hL] at hn
        interval_cases n
        · simp [utf8DecodeOne]
        · match k with
          | 0 =>
            simp only [List.take_succ_cons, List.take_zero, List.drop_zero]
            simp only [utf8DecodeOne]
            rw [if_neg (by omega), if_neg (by omega), if_neg (by omega), if_pos (by omega)]
            rfl
          | k + 1 => simp [utf8DecodeOne]
        · match k with
          | 0 =>
            simp only [List.take_succ_cons, List.take_zero, List.drop_zero]
            simp only [utf8DecodeOne]
            rw [if_neg (by omega), if_neg (by omega), if_neg (by omega), if_pos (by omega)]
            rfl
          | 1 =>
            simp only [List.take_succ_cons, List.take_zero, List.drop_succ_cons,
              List.drop_zero]
            exact utf8DecodeOne_cont _ _ (by omega) (by omega)
          | k + 2 => simp [utf8DecodeOne]
      · have hL : utf8CharLen c = 4 := by
          unfold utf8CharLen
          rw [if_neg hn1, if_neg hn2, if_neg hn3]
        have henc : utf8EncodeChar c =
            [0xF0 + c.toNat / 262144, 0x80 + c.toNat / 4096 % 64,
             0x80 + c.toNat / 64 % 64, 0x80 + c.toNat % 64] := by
          unfold utf8EncodeChar
          rw [if_neg hn1, if_neg hn2, if_neg hn3]
        rw [henc]
        rw [hL] at hn
        interval_cases n
        · simp [utf8DecodeOne]
        · match k with
          | 0 =>
            simp only [List.take_succ_cons, List.take_zero, List.drop_zero]
            simp only [utf8DecodeOne]
            rw [if_neg (by omega), if_neg (by omega), if_neg (by omega), if_neg (by omega),
              if_pos (by omega)]
            rfl
          | k + 1 => simp [utf8DecodeOne]
        · match k with
          | 0 =>
            simp only [List.take_succ_cons, List.take_zero, List.drop_zero]
            simp only [utf8DecodeOne]
            rw [if_neg (by omega), if_neg (by omega), if_neg (by omega), if_neg (by omega),
              if_pos (by omega)]
            rfl
          | 1 =>
            simp only [List.take_succ_cons, List.take_zero, List.drop_succ_cons,
              List.drop_zero]
            exact utf8DecodeOne_cont _ _ (by omega) (by omega)
          | k + 2 => simp [utf8DecodeOne]
        · match k with
          | 0 =>
            simp only [List.take_succ_cons, List.take_zero, List.drop_zero]
            simp only [utf8DecodeOne]
            rw [if_neg (by omega), if_neg (by omega), if_neg (by omega), if_neg (by omega),
              if_pos (by omega)]
            rfl
          | 1 =>
            simp only [List.take_succ_cons, List.take_zero, List.drop_succ_cons,
              List.drop_zero]
            exact utf8DecodeOne_cont _ _ (by omega) (by omega)
          | 2 =>
            simp only [List.take_succ_cons, List.take_zero, List.drop_succ_cons,
              List.drop_zero]
            exact utf8DecodeOne_cont _ _ (by omega) (by omega)
          | k + 3 => simp [utf8DecodeOne]

/-- Decoding a byte-prefix of a valid UTF-8 encoding yields a character
prefix of the original string: the partial character at the cut is dropped. -/
theorem decode_take_encode (s : PyStr) :
    ∀ n : Nat, ∃ k, utf8DecodeIgnore ((utf8Encode s).take n) = s.take k := by
  induction s with
  | nil => intro n; exact ⟨0, by simp [utf8Encode, utf8DecodeIgnore, utf8DecodeIgnoreAux]⟩
  | cons c s' ih =>
    intro n
    have hflat : utf8Encode (c :: s') = utf8EncodeChar c ++ utf8Encode s' := by
      simp [utf8Encode]
    by_cases hn : utf8CharLen c ≤ n
    · obtain ⟨k, hk⟩ := ih (n - utf8CharLen c)
      refine ⟨k + 1, ?_⟩
      rw [hflat, List.take_append_eq_append_take,
        List.take_of_length_le (by rw [utf8EncodeChar_length]; omega),
        utf8EncodeChar_length]
      rw [utf8DecodeIgnore_cons, hk, List.take_succ_cons]
    · refine ⟨0, ?_⟩
      rw [hflat, List.take_append_eq_append_take,
        show n - (utf8EncodeChar c).length = 0 by rw [utf8EncodeChar_length]; omega]
      simp only [List.take_zero, List.append_nil]
      unfold utf8DecodeIgnore
      rw [decode_take_encodeChar_cut c n (by omega)]

/-- **C2 (amended).**  An under-limit response passes through byte-identical
with untouched metadata and nothing persisted; an over-limit response has
its full untouched output persisted, its returned output is a character
prefix of the original (any partial multi-byte character at the byte cut is
dropped) followed by the truncation notice, the returned byte length
(including the notice) is at most the configured limit *whenever the limit
is at least the 51-byte notice* (below that the notice alone exceeds the
limit — see the counterexample), and the metadata gains the truncated flag,
the full-output path, and the original and truncated byte sizes.
Truncation is total — it never raises. -/
theorem claim_C2 (limit : Int) (tmp : PyStr) (resp : AgentResponse) :
    ((utf8Len resp.output : Int) ≤ limit →
      apply_output_limit limit tmp resp = (resp, none)) ∧
    (limit < (utf8Len resp.output : Int) →
      (apply_output_limit limit tmp resp).2 = some resp.output ∧
      (∃ k, (apply_output_limit limit tmp resp).1.output =
        resp.output.take k ++ truncationSuffix) ∧
      ((51 : Int) ≤ limit →
        (utf8Len (apply_output_limit limit tmp resp).1.output : Int) ≤ limit) ∧
      (apply_output_limit limit tmp resp).1.agent = resp.agent ∧
      (apply_output_limit limit tmp resp).1.raw_output = resp.raw_output ∧
      dictGet (apply_output_limit limit tmp resp).1.metadata (pystr "truncated") =
        some (.bool true) ∧
      dictGet (apply_output_limit limit tmp resp).1.metadata (pystr "full_output_path") =
        some (.str tmp) ∧
      dictGet (apply_output_limit limit tmp resp).1.metadata (pystr "original_size_bytes") =
        some (.int (utf8Len resp.output)) ∧
      dictGet (apply_output_limit limit tmp resp).1.metadata (pystr "truncated_size_bytes") =
        some (.int (utf8Len (apply_output_limit limit tmp resp).1.output))) := by
  constructor
  · intro hle
    have hle' : (((utf8Encode resp.output).length : Int) ≤ limit) := hle
    simp only [apply_output_limit]
    rw [if_pos hle']
  · intro hgt
    have hgt' : ¬ (((utf8Encode resp.output).length : Int) ≤ limit) := not_le.mpr hgt
    have hsuffix : utf8Len truncationSuffix = 51 := rfl
    refine ⟨?_, ?_, ?_, ?_, ?_, ?_, ?_, ?_, ?_⟩
    · simp only [apply_output_limit]
      rw [if_neg hgt']
    · simp only [apply_output_limit]
      rw [if_neg hgt']
      obtain ⟨k, hk⟩ := decode_take_encode resp.output
        ((limit - (utf8Len truncationSuffix : Int)).toNat)
      refine ⟨k, ?_⟩
      show utf8DecodeIgnore ((utf8Encode resp.output).take
        ((limit - (utf8Len truncationSuffix : Int)).toNat)) ++ truncationSuffix =
        resp.output.take k ++ truncationSuffix
      rw [hk]
    · intro h51
      simp only [apply_output_limit]
      rw [if_neg hgt']
      show (utf8Len (utf8DecodeIgnore ((utf8Encode resp.output).take
        ((limit - (utf8Len truncationSuffix : Int)).toNat)) ++ truncationSuffix) : Int) ≤ limit
      rw [utf8Len_append]
      have h1 := utf8Len_decodeIgnore_le ((utf8Encode resp.output).take
        ((limit - (utf8Len truncationSuffix : Int)).toNat))
      have h2 : ((utf8Encode resp.output).take
          ((limit - (utf8Len truncationSuffix : Int)).toNat)).length ≤
          (limit - (utf8Len truncationSuffix : Int)).toNat := by
        rw [List.length_take]
        exact min_le_left _ _
      omega
    · simp only [apply_output_limit]
      rw [if_neg hgt']
    · simp only [apply_output_limit]
      rw [if_neg hgt']
    · simp only [apply_output_limit]
      rw [if_neg hgt']
      show dictGet (dictInsert (dictInsert (dictInsert (dictInsert resp.metadata
        (pystr "truncated") (.bool true)) (pystr "full_output_path") (.str tmp))
        (pystr "original_size_bytes") (.int (utf8Encode resp.output).length))
        (pystr "truncated_size_bytes") _) (pystr "truncated") = some (.bool true)
      rw [dictGet_insert_ne _ _ _ _ (by decide), dictGet_insert_ne _ _ _ _ (by decide),
        dictGet_insert_ne _ _ _ _ (by decide), dictGet_insert_self]
    · simp only [apply_output_limit]
      rw [if_neg hgt']
      show dictGet (dictInsert (dictInsert (dictInsert (dictInsert resp.metadata
        (pystr "truncated") (.bool true)) (pystr "full_output_path") (.str tmp))
        (pystr "original_size_bytes") (.int (utf8Encode resp.output).length))
        (pystr "truncated_size_bytes") _) (pystr "full_output_path") = some (.str tmp)
      rw [dictGet_insert_ne _ _ _ _ (by decide), dictGet_insert_ne _ _ _ _ (by decide),
        dictGet_insert_self]
    · simp only [apply_output_limit]
      rw [if_neg hgt']
      show dictGet (dictInsert (dictInsert (dictInsert (dictInsert resp.metadata
        (pystr "truncated") (.bool true)) (pystr "full_output_path") (.str tmp))
        (pystr "original_size_bytes") (.int (utf8Encode resp.output).length))
        (pystr "truncated_size_bytes") _) (pystr "original_size_bytes") =
        some (.int (utf8Len resp.output))
      rw [dictGet_insert_ne _ _ _ _ (by decide), dictGet_insert_self]
      rfl
    · simp only [apply_output_limit]
      rw [if_neg hgt']
      rw [dictGet_insert_self]

/-- **C2 (counterexample to the unamended claim).**  With the configured
limit 10 and an 11-byte output, the truncated output is the 51-byte notice
alone, which exceeds the limit — the claim's unconditional "truncated byte
length ≤ configured limit" is false for limits below the notice size. -/
theorem claim_C2_counterexample :
    10 < (utf8Len (pystr "aaaaaaaaaaa") : Int) ∧
    ¬ ((utf8Len (apply_output_limit 10 (pystr "/tmp/full")
        { agent := pystr "gemini", output := pystr "aaaaaaaaaaa",
          raw_output := pystr "r" }).1.output : Int) ≤ 10) :=
  ⟨by decide, by decide⟩

/-- Witness for C2: an under-limit response passes through unchanged, and a
70-byte output against limit 60 is persisted in full and truncated to at
most 60 bytes. -/
theorem claim_C2_witness :
    apply_output_limit 100 (pystr "/tmp/full")
      { agent := pystr "gemini", output := pystr "short", raw_output := pystr "r" } =
      ({ agent := pystr "gemini", output := pystr "short", raw_output := pystr "r" }, none) ∧
    (apply_output_limit 60 (pystr "/tmp/full")
      { agent := pystr "gemini",
        output := pystr "aaaaaaaaaaaaaaaaaaaaaaaaaaaaaaaaaaaaaaaaaaaaaaaaaaaaaaaaaaaaaaaaaaaaaa",
        raw_output := pystr "r" }).2 =
      some (pystr "aaaaaaaaaaaaaaaaaaaaaaaaaaaaaaaaaaaaaaaaaaaaaaaaaaaaaaaaaaaaaaaaaaaaaa") ∧
    (utf8Len (apply_output_limit 60 (pystr "/tmp/full")
      { agent := pystr "gemini",
        output := pystr "aaaaaaaaaaaaaaaaaaaaaaaaaaaaaaaaaaaaaaaaaaaaaaaaaaaaaaaaaaaaaaaaaaaaaa",
        raw_output := pystr "r" }).1.output : Int) ≤ 60 := by
  have h1 := (claim_C2 100 (pystr "/tmp/full")
    { agent := pystr "gemini", output := pystr "short", raw_output := pystr "r" }).1
    (by decide)
  have h2 := (claim_C2 60 (pystr "/tmp/full")
    { agent := pystr "gemini",
      output := pystr "aaaaaaaaaaaaaaaaaaaaaaaaaaaaaaaaaaaaaaaaaaaaaaaaaaaaaaaaaaaaaaaaaaaaaa",
      raw_output := pystr "r" }).2 (by decide)
  exact ⟨h1, h2.1, h2.2.2.1 (by decide)⟩

end NexusMCP
